import Mathlib

/-!
# Verification of the QA job pipeline orchestrator (`lib/queue.ts`)

This file is a shallow embedding of the in-memory job queue of the
auto-qa-sheets repository: the `JobQueue` class of `src/lib/queue.ts`
(job admission, the single-worker FIFO scheduler, retry handling,
capacity-bound eviction) together with the stage-orchestration logic of
`executeQAProcessing` and the zero-image check at the end of
`screenshotProcessor.processScreenshots` (`src/lib/screenshotProcessor.ts`).

External collaborators (the headless browser screenshot calls, the AI
analysis call, the PDF generator, the Google-Sheets update API) are
modelled as an environment `Env` supplying each call's outcome, exactly
as the spec's collaborator contracts describe them.  All queue-side
control flow — which collaborator is called when, which exceptions are
caught where, every `processingLogs.push`, every status/field mutation —
is translated statement by statement from the source.

JavaScript specifics carried over faithfully:
* `Map` keeps insertion order; it is embedded as an association list
  (`mapGet` = first match, `mapSet` = in-place update or append,
  `mapDelete` = remove key).
* Truthiness tests (`job.sheetId && job.rowIndex && result.pdfUrl`)
  treat `""` and `0` as false; see `truthyStr` / `truthyNat`.
* `Array.prototype.sort` with the numeric `createdAt` comparator is a
  stable ascending sort; it is embedded as a stable insertion sort
  (`sortJobs`), extensionally equal to any stable ascending sort.
* `Date.now()` timestamps are `Nat` milliseconds; ISO strings are only
  interpolated into log text.
* Job ids are `articleId-Date.now()-random`; id generation is modelled
  as an input to the admission step together with the freshness premise
  that the generator never returns a previously generated id
  (the spec's "id unique, generated at admission, never reused").
  The ghost field `usedIds` records every id handed to an admission.
* The only float in the modelled code (`fileSize` in MB, log text
  only) is rendered with integer division.
-/

set_option maxRecDepth 100000

/-- Job status, `"pending" | "processing" | "completed" | "failed"`. -/
inductive Status where
  | pending
  | processing
  | completed
  | failed
deriving DecidableEq, Repr

/-- `modelStats` payload produced by the Render collaborator. -/
structure ModelStats where
  meshCount : Nat
  materialCount : Nat
  vertices : Nat
  triangles : Nat
  doubleSidedCount : Nat
  doubleSidedMaterials : List String
  fileSize : Nat
deriving DecidableEq, Repr

/-- Similarity sub-scores optionally returned by the Analyze collaborator. -/
structure AiScores where
  silhouette : Nat
  proportion : Nat
  colorMaterial : Nat
  overall : Nat
deriving DecidableEq, Repr

/-- One discrepancy reported by the Analyze collaborator. -/
structure AiDifference where
  renderIndex : Nat
  referenceIndex : Nat
  issues : List String
  bbox : Nat × Nat × Nat × Nat
  severity : String
deriving DecidableEq, Repr

/-- The `aiAnalysis` payload: verdict, summary, discrepancies, scores. -/
structure AiAnalysis where
  differences : List AiDifference
  summary : String
  status : String
  scores : Option AiScores
deriving DecidableEq, Repr

/-- `QAJobInput`: the admission payload. -/
structure QAJobInput where
  articleId : String
  productName : String
  references : List String
  sheetId : Option String
  rowIndex : Option Nat
deriving DecidableEq, Repr

/-- `QAJob`: one job record, field for field as in `lib/queue.ts`. -/
structure QAJob where
  id : String
  articleId : String
  productName : String
  references : List String
  status : Status
  createdAt : Nat
  startedAt : Option Nat
  completedAt : Option Nat
  retries : Nat
  maxRetries : Nat
  error : Option String
  screenshots : Option (List String)
  modelStats : Option ModelStats
  aiAnalysis : Option AiAnalysis
  pdfUrl : Option String
  sheetId : Option String
  rowIndex : Option Nat
  processingLogs : List String
deriving DecidableEq, Repr

/-- JS truthiness of a `string | undefined` value (`""` is falsy). -/
def truthyStr : Option String → Bool
  | none => false
  | some s => s ≠ ""

/-- JS truthiness of a `number | undefined` value (`0` is falsy). -/
def truthyNat : Option Nat → Bool
  | none => false
  | some n => n ≠ 0

/-- `Map.get`: first entry with the key (JS maps have unique keys). -/
def mapGet : List (String × QAJob) → String → Option QAJob
  | [], _ => none
  | p :: rest, k => if p.1 = k then some p.2 else mapGet rest k

/-- `Map.set`: update the entry in place if the key is present, else append. -/
def mapSet (m : List (String × QAJob)) (k : String) (v : QAJob) :
    List (String × QAJob) :=
  match m with
  | [] => [(k, v)]
  | p :: rest => if p.1 = k then (k, v) :: rest else p :: mapSet rest k v

/-- `Map.delete`: remove the entry with the key. -/
def mapDelete (m : List (String × QAJob)) (k : String) : List (String × QAJob) :=
  m.filter (fun p => p.1 ≠ k)

/-- One step of the stable ascending insertion used to model the JS stable
`sort((a, b) => aTime - bTime)`: a new element goes after every element
whose `createdAt` is `≤` its own. -/
def insertJob (l : List (String × QAJob)) (p : String × QAJob) :
    List (String × QAJob) :=
  match l with
  | [] => [p]
  | q :: rest =>
    if p.2.createdAt < q.2.createdAt then p :: q :: rest
    else q :: insertJob rest p

/-- Stable ascending sort by `createdAt` (the `jobsArray` sort in
`cleanupOldJobs`). -/
def sortJobs (m : List (String × QAJob)) : List (String × QAJob) :=
  m.foldl insertJob []

/-- `MAX_JOBS` — the fixed store bound. -/
def MAX_JOBS : Nat := 100

/-- `cleanupOldJobs`: if the store holds more than `MAX_JOBS` records,
sort by `createdAt` ascending, take the oldest `size - MAX_JOBS` entries,
and delete each of them unless its current status is `processing`
(`jobs.get(jobId)?.status !== "processing"`; an absent record also
passes that test and the delete is a no-op).  `removeOldJob` is one
iteration of the deletion loop. -/
def removeOldJob (acc : List (String × QAJob)) (p : String × QAJob) :
    List (String × QAJob) :=
  match mapGet acc p.1 with
  | some j => if j.status = Status.processing then acc else mapDelete acc p.1
  | none => mapDelete acc p.1

/-- The deletion loop of `cleanupOldJobs` over the oldest entries. -/
def cleanupOldJobs (m : List (String × QAJob)) : List (String × QAJob) :=
  if m.length ≤ MAX_JOBS then m
  else
    let jobsArray := sortJobs m
    let jobsToRemove := jobsArray.take (jobsArray.length - MAX_JOBS)
    jobsToRemove.foldl removeOldJob m

/-- `findJobByArticleId`: scan `jobs.values()` in insertion order and
return the first record with the article id, whatever its status. -/
def findJobByArticleId : List (String × QAJob) → String → Option QAJob
  | [], _ => none
  | p :: rest, articleId =>
    if p.2.articleId = articleId then some p.2 else findJobByArticleId rest articleId

/-- Which collaborator calls a processing attempt actually made. -/
inductive StageCall where
  | render
  | analyze
  | pdf
  | sheet
deriving DecidableEq, Repr

/-- Successful return of `screenshotProcessor.processScreenshots`. -/
structure ScreenshotResult where
  screenshots : List String
  modelStats : Option ModelStats
  processingLogs : List String
deriving DecidableEq, Repr

/-- Successful return of `generateQAReport`. -/
structure PdfResult where
  pdfUrl : String
  processingLogs : List String
deriving DecidableEq, Repr

/-- The record `executeQAProcessing` resolves with. -/
structure QAResult where
  screenshots : List String
  modelStats : Option ModelStats
  aiAnalysis : Option AiAnalysis
  pdfUrl : Option String
deriving DecidableEq, Repr

/-- Collaborator environment for one processing attempt: what each
external call would return (or throw) if made.  `setup` is a thrown
message from the browser/GLB setup part of the Render stage; `shot` is
the per-angle screenshot outcome; the rest are the Analyze, Report and
Publish collaborators of the spec's contracts. -/
structure Env where
  setup : Option String
  shot : String → Except String String
  modelStats : Option ModelStats
  analyzeScreenshots : Except String AiAnalysis
  generateQAReport : Except String PdfResult
  updateSheet : Except String Unit

/-- The five fixed camera angles of the Render stage. -/
def screenshotAngles : List String := ["front", "back", "left", "right", "isometric"]

/-- Per-angle log lines of the screenshot loop (each failed angle is
logged individually and never raised). -/
def angleLogs (env : Env) (a : String) : List String :=
  s!"Taking screenshot from {a} angle..." ::
    (match env.shot a with
     | .ok url => [s!"✅ {a} screenshot completed: {url}"]
     | .error m => [s!"❌ Failed to capture {a} screenshot: {m}"])

/-- The Render stage, `screenshotProcessor.processScreenshots`: collect
the per-angle successes; if zero screenshots were captured, throw.  The
outer catch wraps any thrown message in `Screenshot processing failed:`
and the collected logs are lost with the throw (the caller only sees
`processingLogs` of a successful result). -/
def processScreenshots (env : Env) : Except String ScreenshotResult :=
  match env.setup with
  | some e => .error s!"Screenshot processing failed: {e}"
  | none =>
    let screenshots := screenshotAngles.filterMap (fun a => (env.shot a).toOption)
    let logs := (screenshotAngles.map (angleLogs env)).flatten ++ ["Browser closed"]
    if screenshots.length = 0 then
      .error "Screenshot processing failed: No screenshots were successfully captured. Check GLB file validity and model-viewer compatibility."
    else
      let n := screenshots.length
      .ok { screenshots := screenshots
            modelStats := env.modelStats
            processingLogs := logs ++ [s!"Screenshot processing completed: {n} images generated"] }

/-- `job.processingLogs.push(line)`. -/
def pushLog (j : QAJob) (s : String) : QAJob :=
  { j with processingLogs := j.processingLogs ++ [s] }

/-- `job.processingLogs.push(...lines)`. -/
def pushLogs (j : QAJob) (ls : List String) : QAJob :=
  { j with processingLogs := j.processingLogs ++ ls }

/-- Result of `executeQAProcessing`: the mutated job (pushes to
`job.processingLogs` and the pre-PDF field writes persist even when the
function throws), the collaborator calls made, and either the resolved
`QAResult` or the thrown message. -/
structure ExecResult where
  job : QAJob
  calls : List StageCall
  result : Except String QAResult
deriving Repr

/-- `executeQAProcessing`, translated branch for branch: Render first
(a throw propagates); then, only if there is at least one screenshot and
at least one reference, the Analyze call (its failure is caught and
logged, two lines); on Analyze success the PDF report call (its failure
is caught and logged, two lines); otherwise a single skip line. -/
def executeQAProcessing (env : Env) (job0 : QAJob) : ExecResult :=
  let job := pushLog job0 "Starting screenshot generation..."
  match processScreenshots env with
  | .error e => ⟨job, [StageCall.render], .error e⟩
  | .ok sr =>
    let job := pushLogs job sr.processingLogs
    if 0 < sr.screenshots.length ∧ 0 < job.references.length then
      let ns := sr.screenshots.length
      let nr := job.references.length
      let job := pushLog job s!"Starting AI analysis with {ns} screenshots and {nr} references..."
      let job :=
        match sr.modelStats with
        | some ms =>
          let mb := ms.fileSize / (1024 * 1024)
          pushLog job s!"Model statistics: {ms.triangles} triangles, {ms.meshCount} meshes, {ms.materialCount} materials, {mb}MB"
        | none => job
      match env.analyzeScreenshots with
      | .error e =>
        let job := pushLog job s!"❌ AI analysis failed: {e}"
        let job := pushLog job "⚠️ Continuing without AI analysis and PDF report"
        ⟨job, [StageCall.render, StageCall.analyze],
          .ok ⟨sr.screenshots, sr.modelStats, none, none⟩⟩
      | .ok ana =>
        let job := pushLog job "✅ AI analysis completed successfully"
        let job := pushLog job s!"Analysis status: {ana.status}"
        let nd := ana.differences.length
        let job := pushLog job s!"Found {nd} differences"
        let job :=
          match ana.scores with
          | some sc =>
            pushLog job s!"Similarity scores - Silhouette: {sc.silhouette}%, Proportion: {sc.proportion}%, Color/Material: {sc.colorMaterial}%, Overall: {sc.overall}%"
          | none => job
        let job := pushLog job "Starting PDF report generation..."
        let job := { job with
          aiAnalysis := some ana
          screenshots := some sr.screenshots
          modelStats := sr.modelStats }
        match env.generateQAReport with
        | .error e =>
          let job := pushLog job s!"❌ PDF generation failed: {e}"
          let job := pushLog job "⚠️ Continuing without PDF report"
          ⟨job, [StageCall.render, StageCall.analyze, StageCall.pdf],
            .ok ⟨sr.screenshots, sr.modelStats, some ana, none⟩⟩
        | .ok pr =>
          let job := pushLogs job pr.processingLogs
          let job := pushLog job s!"✅ PDF report generated: {pr.pdfUrl}"
          ⟨job, [StageCall.render, StageCall.analyze, StageCall.pdf],
            .ok ⟨sr.screenshots, sr.modelStats, some ana,
                 if pr.pdfUrl = "" then none else some pr.pdfUrl⟩⟩
    else
      let job := pushLog job "⚠️ Skipping AI analysis and PDF generation - no screenshots or references available"
      ⟨job, [StageCall.render], .ok ⟨sr.screenshots, sr.modelStats, none, none⟩⟩

/-- `handleJobError`: increment `retries`, record the error, log it; if
the incremented count is still below `maxRetries`, back to `pending` and
re-queue (second component `true`); otherwise `failed` with
`completedAt`. -/
def handleJobError (t : Nat) (job0 : QAJob) (errorMessage : String) : QAJob × Bool :=
  let r := job0.retries + 1
  let job := { job0 with retries := r, error := some errorMessage }
  let job := pushLog job s!"Error (attempt {r}): {errorMessage}"
  let mr := job.maxRetries
  if r < mr then
    let job := { job with status := Status.pending }
    let job := pushLog job s!"Retry scheduled ({r}/{mr})"
    (job, true)
  else
    let job := { job with status := Status.failed, completedAt := some t }
    let job := pushLog job s!"Failed permanently after {r} attempts"
    (job, false)

/-- Output of one processing attempt (`processJob` after the status
flip): the final job record, the collaborator calls made, and whether
the id must be re-queued for a retry. -/
structure ProcOut where
  job : QAJob
  calls : List StageCall
  requeue : Bool
deriving Repr

/-- The optional `AI Analysis: …` success log of `processJob`
(`if (result.aiAnalysis) { push(…) }`). -/
def aiVerdictLog : Option AiAnalysis → List String
  | some ana => [s!"AI Analysis: {ana.status}"]
  | none => []

/-- The optional `PDF Report: …` success log of `processJob`
(`if (result.pdfUrl) { push(…) }`). -/
def pdfUrlLog : Option String → List String
  | some url => [s!"PDF Report: {url}"]
  | none => []

/-- The optional `Model Stats: …` success log of `processJob`
(`if (result.modelStats) { push(…) }`). -/
def modelStatsFinalLog : Option ModelStats → List String
  | some ms => [s!"Model Stats: {ms.vertices} vertices, {ms.triangles} triangles"]
  | none => []

/-- The logs of the guarded sheet-update attempt of `processJob`: the
announcement line, then the success line or the caught-and-logged
failure line; nothing at all when the guard is false. -/
def sheetAttemptLogs (env : Env) : Bool → List String
  | true =>
    ["Updating Google Sheet with PDF link...",
     match env.updateSheet with
     | .ok _ => "✅ Google Sheet updated successfully"
     | .error e => s!"⚠️ Sheet update failed: {e}"]
  | false => []

/-- The success tail of `processJob`: flip to `completed`, stamp
`completedAt`, write the stage outputs, push the success logs (each
`if (result.…) push` rendered by its log helper) and — only when
`job.sheetId`, `job.rowIndex` and `result.pdfUrl` are all truthy —
attempt the sheet update (`updateGoogleSheet`, modelled by
`env.updateSheet`), whose failure is caught and only logged.  The
second component records whether the sheet update was attempted. -/
def finalizeJob (env : Env) (t : Nat) (result : QAResult) (job1 : QAJob) :
    QAJob × Bool :=
  let job := { job1 with
    status := Status.completed
    completedAt := some t
    screenshots := some result.screenshots
    modelStats := result.modelStats
    aiAnalysis := result.aiAnalysis
    pdfUrl := result.pdfUrl }
  let n := result.screenshots.length
  let job := pushLog job s!"Completed successfully at {t}"
  let job := pushLog job s!"Generated {n} screenshots"
  let job := pushLogs job (aiVerdictLog result.aiAnalysis)
  let job := pushLogs job (pdfUrlLog result.pdfUrl)
  let job := pushLogs job (modelStatsFinalLog result.modelStats)
  let publish := truthyStr job.sheetId && truthyNat job.rowIndex && truthyStr result.pdfUrl
  let job := pushLogs job (sheetAttemptLogs env publish)
  (job, publish)

/-- The body of `processJob` after `status = "processing"` was set: run
`executeQAProcessing`; on success run the `finalizeJob` tail; on a
throw route to `handleJobError`. -/
def processJobRun (env : Env) (t : Nat) (job0 : QAJob) : ProcOut :=
  let er := executeQAProcessing env job0
  match er.result with
  | .error e =>
    let out := handleJobError t er.job e
    ⟨out.1, er.calls, out.2⟩
  | .ok result =>
    let fin := finalizeJob env t result er.job
    ⟨fin.1, if fin.2 then er.calls ++ [StageCall.sheet] else er.calls, false⟩

/-- The mutable state of the `JobQueue` singleton: the insertion-ordered
job map, the FIFO list of queued ids, and the id currently inside
`processJob` (`none` when the worker sits between jobs or is idle).
`usedIds` is a ghost field recording every id handed to an admission,
used to state that the id generator never repeats itself. -/
structure SysState where
  jobs : List (String × QAJob)
  queue : List String
  inFlight : Option String
  usedIds : List String
deriving Repr

/-- The queue at process start: empty map, empty queue, idle worker. -/
def initState : SysState := ⟨[], [], none, []⟩

/-- The fresh record `addJob` builds (status `pending`, `retries 0`,
`maxRetries 3`, one creation log line). -/
def newJob (jobData : QAJobInput) (jobId : String) (t : Nat) : QAJob :=
  { id := jobId
    articleId := jobData.articleId
    productName := jobData.productName
    references := jobData.references
    status := Status.pending
    createdAt := t
    startedAt := none
    completedAt := none
    retries := 0
    maxRetries := 3
    error := none
    screenshots := none
    modelStats := none
    aiAnalysis := none
    pdfUrl := none
    sheetId := jobData.sheetId
    rowIndex := jobData.rowIndex
    processingLogs := [s!"Job created for Article ID: {jobData.articleId}"] }

/-- The creation branch of `addJob`: store the record, append the id to
the scheduler queue, then run `cleanupOldJobs`. -/
def addNewJob (st : SysState) (jobData : QAJobInput) (jobId : String) (t : Nat) :
    SysState × QAJob :=
  let job := newJob jobData jobId t
  ({ st with
       jobs := cleanupOldJobs (mapSet st.jobs jobId job)
       queue := st.queue ++ [jobId] }, job)

/-- `addJob`: generate an id (modelled as the `jobId` argument, recorded
in `usedIds`), return the first record `findJobByArticleId` yields for
the article id unchanged if its status is pending or processing,
otherwise create and enqueue a fresh pending record. -/
def addJob (st : SysState) (jobData : QAJobInput) (jobId : String) (t : Nat) :
    SysState × QAJob :=
  let st0 := { st with usedIds := jobId :: st.usedIds }
  match findJobByArticleId st.jobs jobData.articleId with
  | some existingJob =>
    if existingJob.status = Status.pending ∨ existingJob.status = Status.processing then
      (st0, existingJob)
    else
      addNewJob st0 jobData jobId t
  | none => addNewJob st0 jobData jobId t

/-- The synchronous prefix of `processJob`: flip to `processing`, set
`startedAt`, log the start. -/
def startJob (t : Nat) (job : QAJob) : QAJob :=
  let job := { job with status := Status.processing, startedAt := some t }
  pushLog job s!"Started processing at {t}"

/-- One head-of-loop step of `startProcessing`: `shift()` the front id;
if no record exists for it any more, `continue` silently; otherwise
enter `processJob` (the job becomes the in-flight one). -/
def beginJob (t : Nat) (st : SysState) : SysState :=
  match st.queue with
  | [] => st
  | jobId :: rest =>
    match mapGet st.jobs jobId with
    | none => { st with queue := rest }
    | some job =>
      { st with
          queue := rest
          jobs := mapSet st.jobs jobId (startJob t job)
          inFlight := some jobId }

/-- The rest of the worker's `processJob` call on the in-flight job:
run the pipeline, store the mutated record, and append the id back to
the queue tail when `handleJobError` scheduled a retry. -/
def finishJob (env : Env) (t : Nat) (st : SysState) : SysState :=
  match st.inFlight with
  | none => st
  | some jobId =>
    match mapGet st.jobs jobId with
    | none => { st with inFlight := none }
    | some job =>
      let out := processJobRun env t job
      { st with
          jobs := mapSet st.jobs jobId out.job
          queue := if out.requeue then st.queue ++ [out.job.id] else st.queue
          inFlight := none }

/-- The events that mutate the queue state.  Admissions may land at any
`await` point, hence also while a job is in flight; the single worker
begins a job only when idle and finishes the one in flight.  The
freshness premise on `add` embeds the id generator's never-reuse
guarantee. -/
inductive Step : SysState → SysState → Prop where
  | add (st : SysState) (jobData : QAJobInput) (jobId : String) (t : Nat)
      (hfresh : jobId ∉ st.usedIds) :
      Step st (addJob st jobData jobId t).1
  | run (st : SysState) (t : Nat)
      (hidle : st.inFlight = none) (hqueue : st.queue ≠ []) :
      Step st (beginJob t st)
  | finish (st : SysState) (env : Env) (t : Nat) (jobId : String)
      (hflight : st.inFlight = some jobId) :
      Step st (finishJob env t st)

/-- States reachable from process start by admissions and worker steps. -/
def Reachable (st : SysState) : Prop :=
  Relation.ReflTransGen Step initState st

/-! ## Association-list lemmas -/

theorem mapGet_mapSet (m : List (String × QAJob)) (k k' : String) (v : QAJob) :
    mapGet (mapSet m k v) k' = if k' = k then some v else mapGet m k' := by
  induction m with
  | nil =>
    simp only [mapSet]
    by_cases h : k' = k
    · subst h; simp [mapGet]
    · simp [mapGet, h, Ne.symm h]
  | cons p rest ih =>
    simp only [mapSet]
    by_cases hpk : p.1 = k
    · simp only [if_pos hpk, mapGet]
      by_cases h : k' = k
      · subst h; simp
      · have hpk' : ¬ p.1 = k' := by rw [hpk]; exact fun e => h e.symm
        simp [h, Ne.symm h, hpk']
    · simp only [if_neg hpk, mapGet]
      by_cases hpk' : p.1 = k'
      · have h : ¬ k' = k := fun he => hpk (hpk'.trans he)
        simp [hpk', h]
      · simp [hpk', ih]

theorem mapGet_mapDelete (m : List (String × QAJob)) (k k' : String) :
    mapGet (mapDelete m k) k' = if k' = k then none else mapGet m k' := by
  induction m with
  | nil => simp [mapGet, mapDelete]
  | cons p rest ih =>
    by_cases hpk : p.1 = k
    · have hd : mapDelete (p :: rest) k = mapDelete rest k := by
        simp [mapDelete, hpk]
      rw [hd, ih]
      by_cases h : k' = k
      · simp [h]
      · have hpk' : ¬ p.1 = k' := by rw [hpk]; exact fun e => h e.symm
        simp [mapGet, h, hpk']
    · have hd : mapDelete (p :: rest) k = p :: mapDelete rest k := by
        simp [mapDelete, hpk]
      rw [hd]
      by_cases hpk' : p.1 = k'
      · have h : ¬ k' = k := fun he => hpk (hpk'.trans he)
        simp [mapGet, hpk', h]
      · simp [mapGet, hpk', ih]

theorem mapGet_removeOldJob_ne (acc : List (String × QAJob)) (p : String × QAJob)
    (k : String) (h : ¬ p.1 = k) :
    mapGet (removeOldJob acc p) k = mapGet acc k := by
  unfold removeOldJob
  have hne : ¬ k = p.1 := fun e => h e.symm
  split
  · split
    · rfl
    · rw [mapGet_mapDelete]; simp [hne]
  · rw [mapGet_mapDelete]; simp [hne]

theorem mapGet_removeOldJob_processing (acc : List (String × QAJob))
    (p : String × QAJob) (id : String) (j : QAJob)
    (hg : mapGet acc id = some j) (hs : j.status = Status.processing) :
    mapGet (removeOldJob acc p) id = some j := by
  by_cases h : p.1 = id
  · unfold removeOldJob
    rw [h, hg]
    simp [hs, hg]
  · rw [mapGet_removeOldJob_ne acc p id h]; exact hg

theorem mapGet_removeOldJob_mono (acc : List (String × QAJob))
    (p : String × QAJob) (id : String) (j : QAJob)
    (h : mapGet (removeOldJob acc p) id = some j) : mapGet acc id = some j := by
  by_cases hp : p.1 = id
  · unfold removeOldJob at h
    split at h
    · split at h
      · exact h
      · rw [mapGet_mapDelete, if_pos hp.symm] at h
        exact absurd h (by simp)
    · rw [mapGet_mapDelete, if_pos hp.symm] at h
      exact absurd h (by simp)
  · rw [mapGet_removeOldJob_ne acc p id hp] at h; exact h

theorem mapGet_foldRemove_processing (l : List (String × QAJob)) :
    ∀ (acc : List (String × QAJob)) (id : String) (j : QAJob),
      mapGet acc id = some j → j.status = Status.processing →
      mapGet (l.foldl removeOldJob acc) id = some j := by
  induction l with
  | nil => intro acc id j hg _; exact hg
  | cons p rest ih =>
    intro acc id j hg hs
    exact ih (removeOldJob acc p) id j
      (mapGet_removeOldJob_processing acc p id j hg hs) hs

theorem mapGet_foldRemove_mono (l : List (String × QAJob)) :
    ∀ (acc : List (String × QAJob)) (id : String) (j : QAJob),
      mapGet (l.foldl removeOldJob acc) id = some j → mapGet acc id = some j := by
  induction l with
  | nil => intro acc id j h; exact h
  | cons p rest ih =>
    intro acc id j h
    exact mapGet_removeOldJob_mono acc p id j (ih (removeOldJob acc p) id j h)

theorem mapGet_cleanup_processing (m : List (String × QAJob)) (id : String)
    (j : QAJob) (hg : mapGet m id = some j) (hs : j.status = Status.processing) :
    mapGet (cleanupOldJobs m) id = some j := by
  unfold cleanupOldJobs
  split
  · exact hg
  · exact mapGet_foldRemove_processing _ m id j hg hs

theorem mapGet_cleanup_mono (m : List (String × QAJob)) (id : String) (j : QAJob)
    (h : mapGet (cleanupOldJobs m) id = some j) : mapGet m id = some j := by
  unfold cleanupOldJobs at h
  split at h
  · exact h
  · exact mapGet_foldRemove_mono _ m id j h

theorem mapGet_cleanup_none (m : List (String × QAJob)) (id : String)
    (h : mapGet m id = none) : mapGet (cleanupOldJobs m) id = none := by
  cases hc : mapGet (cleanupOldJobs m) id with
  | none => rfl
  | some j =>
    rw [mapGet_cleanup_mono m id j hc] at h
    exact absurd h (by simp)

/-! ## Projection lemmas for the log-push helpers -/

@[simp] theorem pushLog_status (j : QAJob) (s : String) :
    (pushLog j s).status = j.status := rfl

@[simp] theorem pushLog_retries (j : QAJob) (s : String) :
    (pushLog j s).retries = j.retries := rfl

@[simp] theorem pushLog_maxRetries (j : QAJob) (s : String) :
    (pushLog j s).maxRetries = j.maxRetries := rfl

@[simp] theorem pushLog_id (j : QAJob) (s : String) :
    (pushLog j s).id = j.id := rfl

@[simp] theorem pushLog_error (j : QAJob) (s : String) :
    (pushLog j s).error = j.error := rfl

@[simp] theorem pushLog_completedAt (j : QAJob) (s : String) :
    (pushLog j s).completedAt = j.completedAt := rfl

@[simp] theorem pushLog_sheetId (j : QAJob) (s : String) :
    (pushLog j s).sheetId = j.sheetId := rfl

@[simp] theorem pushLog_rowIndex (j : QAJob) (s : String) :
    (pushLog j s).rowIndex = j.rowIndex := rfl

@[simp] theorem pushLog_aiAnalysis (j : QAJob) (s : String) :
    (pushLog j s).aiAnalysis = j.aiAnalysis := rfl

@[simp] theorem pushLog_pdfUrl (j : QAJob) (s : String) :
    (pushLog j s).pdfUrl = j.pdfUrl := rfl

@[simp] theorem pushLog_screenshots (j : QAJob) (s : String) :
    (pushLog j s).screenshots = j.screenshots := rfl

@[simp] theorem pushLog_modelStats (j : QAJob) (s : String) :
    (pushLog j s).modelStats = j.modelStats := rfl

@[simp] theorem pushLog_references (j : QAJob) (s : String) :
    (pushLog j s).references = j.references := rfl

@[simp] theorem pushLog_articleId (j : QAJob) (s : String) :
    (pushLog j s).articleId = j.articleId := rfl

@[simp] theorem pushLog_createdAt (j : QAJob) (s : String) :
    (pushLog j s).createdAt = j.createdAt := rfl

@[simp] theorem pushLog_startedAt (j : QAJob) (s : String) :
    (pushLog j s).startedAt = j.startedAt := rfl

@[simp] theorem pushLog_productName (j : QAJob) (s : String) :
    (pushLog j s).productName = j.productName := rfl

@[simp] theorem pushLogs_status (j : QAJob) (ls : List String) :
    (pushLogs j ls).status = j.status := rfl

@[simp] theorem pushLogs_retries (j : QAJob) (ls : List String) :
    (pushLogs j ls).retries = j.retries := rfl

@[simp] theorem pushLogs_maxRetries (j : QAJob) (ls : List String) :
    (pushLogs j ls).maxRetries = j.maxRetries := rfl

@[simp] theorem pushLogs_id (j : QAJob) (ls : List String) :
    (pushLogs j ls).id = j.id := rfl

@[simp] theorem pushLogs_error (j : QAJob) (ls : List String) :
    (pushLogs j ls).error = j.error := rfl

@[simp] theorem pushLogs_completedAt (j : QAJob) (ls : List String) :
    (pushLogs j ls).completedAt = j.completedAt := rfl

@[simp] theorem pushLogs_sheetId (j : QAJob) (ls : List String) :
    (pushLogs j ls).sheetId = j.sheetId := rfl

@[simp] theorem pushLogs_rowIndex (j : QAJob) (ls : List String) :
    (pushLogs j ls).rowIndex = j.rowIndex := rfl

@[simp] theorem pushLogs_aiAnalysis (j : QAJob) (ls : List String) :
    (pushLogs j ls).aiAnalysis = j.aiAnalysis := rfl

@[simp] theorem pushLogs_pdfUrl (j : QAJob) (ls : List String) :
    (pushLogs j ls).pdfUrl = j.pdfUrl := rfl

@[simp] theorem pushLogs_screenshots (j : QAJob) (ls : List String) :
    (pushLogs j ls).screenshots = j.screenshots := rfl

@[simp] theorem pushLogs_modelStats (j : QAJob) (ls : List String) :
    (pushLogs j ls).modelStats = j.modelStats := rfl

@[simp] theorem pushLogs_references (j : QAJob) (ls : List String) :
    (pushLogs j ls).references = j.references := rfl

@[simp] theorem pushLogs_articleId (j : QAJob) (ls : List String) :
    (pushLogs j ls).articleId = j.articleId := rfl

@[simp] theorem pushLogs_createdAt (j : QAJob) (ls : List String) :
    (pushLogs j ls).createdAt = j.createdAt := rfl

@[simp] theorem pushLogs_startedAt (j : QAJob) (ls : List String) :
    (pushLogs j ls).startedAt = j.startedAt := rfl

@[simp] theorem pushLogs_productName (j : QAJob) (ls : List String) :
    (pushLogs j ls).productName = j.productName := rfl

@[simp] theorem pushLogs_processingLogs (j : QAJob) (ls : List String) :
    (pushLogs j ls).processingLogs = j.processingLogs ++ ls := rfl

@[simp] theorem pushLog_processingLogs (j : QAJob) (s : String) :
    (pushLog j s).processingLogs = j.processingLogs ++ [s] := rfl

/-! ## Branch equations for one processing attempt -/

/-- `executeQAProcessing` only pushes log lines and writes the
`aiAnalysis`/`screenshots`/`modelStats` stage outputs: every other field
of the job is untouched, in every branch. -/
theorem executeQAProcessing_frame (env : Env) (j : QAJob) :
    (executeQAProcessing env j).job.status = j.status ∧
    (executeQAProcessing env j).job.retries = j.retries ∧
    (executeQAProcessing env j).job.maxRetries = j.maxRetries ∧
    (executeQAProcessing env j).job.id = j.id ∧
    (executeQAProcessing env j).job.error = j.error ∧
    (executeQAProcessing env j).job.sheetId = j.sheetId ∧
    (executeQAProcessing env j).job.rowIndex = j.rowIndex ∧
    (executeQAProcessing env j).job.createdAt = j.createdAt ∧
    (executeQAProcessing env j).job.articleId = j.articleId ∧
    (executeQAProcessing env j).job.references = j.references ∧
    (executeQAProcessing env j).job.completedAt = j.completedAt ∧
    (executeQAProcessing env j).job.startedAt = j.startedAt := by
  unfold executeQAProcessing
  cases hps : processScreenshots env with
  | error e => simp [pushLog]
  | ok sr =>
    simp only []
    split
    · cases ha : env.analyzeScreenshots with
      | error e => cases hms : sr.modelStats <;> simp [pushLog, pushLogs, ha, hms]
      | ok ana =>
        cases hpdf : env.generateQAReport with
        | error e =>
          cases hms : sr.modelStats <;> cases hsc : ana.scores <;>
            simp [pushLog, pushLogs, ha, hms, hsc, hpdf]
        | ok pr =>
          cases hms : sr.modelStats <;> cases hsc : ana.scores <;>
            simp [pushLog, pushLogs, ha, hms, hsc, hpdf]
    · simp [pushLog, pushLogs]

/-- On a retryable failure `handleJobError` produces exactly: `retries`
incremented, the message stored, two log lines, status back to
`pending`, and the re-queue flag. -/
theorem handleJobError_retry (t : Nat) (j : QAJob) (e : String)
    (h : j.retries + 1 < j.maxRetries) :
    handleJobError t j e =
      ({ j with
          retries := j.retries + 1
          error := some e
          status := Status.pending
          processingLogs := j.processingLogs ++
            [s!"Error (attempt {j.retries + 1}): {e}",
             s!"Retry scheduled ({j.retries + 1}/{j.maxRetries})"] }, true) := by
  unfold handleJobError
  simp [pushLog, h]

/-- On a final failure `handleJobError` produces exactly: `retries`
incremented, the message stored, two log lines, status `failed`,
`completedAt` stamped, and no re-queue. -/
theorem handleJobError_fail (t : Nat) (j : QAJob) (e : String)
    (h : ¬ j.retries + 1 < j.maxRetries) :
    handleJobError t j e =
      ({ j with
          retries := j.retries + 1
          error := some e
          status := Status.failed
          completedAt := some t
          processingLogs := j.processingLogs ++
            [s!"Error (attempt {j.retries + 1}): {e}",
             s!"Failed permanently after {j.retries + 1} attempts"] }, false) := by
  unfold handleJobError
  simp [pushLog, h]

/-- Field values of the record the success tail produces. -/
theorem finalizeJob_fst (env : Env) (t : Nat) (r : QAResult) (j1 : QAJob) :
    (finalizeJob env t r j1).1.status = Status.completed ∧
    (finalizeJob env t r j1).1.retries = j1.retries ∧
    (finalizeJob env t r j1).1.maxRetries = j1.maxRetries ∧
    (finalizeJob env t r j1).1.id = j1.id ∧
    (finalizeJob env t r j1).1.error = j1.error ∧
    (finalizeJob env t r j1).1.completedAt = some t ∧
    (finalizeJob env t r j1).1.aiAnalysis = r.aiAnalysis ∧
    (finalizeJob env t r j1).1.pdfUrl = r.pdfUrl ∧
    (finalizeJob env t r j1).1.screenshots = some r.screenshots ∧
    (finalizeJob env t r j1).1.modelStats = r.modelStats ∧
    (finalizeJob env t r j1).1.sheetId = j1.sheetId ∧
    (finalizeJob env t r j1).1.rowIndex = j1.rowIndex := by
  simp [finalizeJob]

/-- The sheet update is attempted exactly when `job.sheetId`,
`job.rowIndex` and `result.pdfUrl` are all truthy. -/
theorem finalizeJob_snd (env : Env) (t : Nat) (r : QAResult) (j1 : QAJob) :
    (finalizeJob env t r j1).2 =
      (truthyStr j1.sheetId && truthyNat j1.rowIndex && truthyStr r.pdfUrl) := by
  simp [finalizeJob]

/-- The exact log suffix the success tail appends. -/
theorem finalizeJob_logs (env : Env) (t : Nat) (r : QAResult) (j1 : QAJob) :
    (finalizeJob env t r j1).1.processingLogs =
      j1.processingLogs ++
        [s!"Completed successfully at {t}",
         s!"Generated {r.screenshots.length} screenshots"] ++
        aiVerdictLog r.aiAnalysis ++ pdfUrlLog r.pdfUrl ++
        modelStatsFinalLog r.modelStats ++
        sheetAttemptLogs env
          (truthyStr j1.sheetId && truthyNat j1.rowIndex && truthyStr r.pdfUrl) := by
  simp [finalizeJob]

/-- `processJobRun` on a thrown pipeline error. -/
theorem processJobRun_error (env : Env) (t : Nat) (j : QAJob) (e : String)
    (h : (executeQAProcessing env j).result = Except.error e) :
    processJobRun env t j =
      ⟨(handleJobError t (executeQAProcessing env j).job e).1,
       (executeQAProcessing env j).calls,
       (handleJobError t (executeQAProcessing env j).job e).2⟩ := by
  simp only [processJobRun]
  rw [h]

/-- `processJobRun` on a resolved pipeline result. -/
theorem processJobRun_ok (env : Env) (t : Nat) (j : QAJob) (r : QAResult)
    (h : (executeQAProcessing env j).result = Except.ok r) :
    processJobRun env t j =
      ⟨(finalizeJob env t r (executeQAProcessing env j).job).1,
       if (finalizeJob env t r (executeQAProcessing env j).job).2 then
         (executeQAProcessing env j).calls ++ [StageCall.sheet]
       else (executeQAProcessing env j).calls,
       false⟩ := by
  simp only [processJobRun]
  rw [h]

/-- Shape of one processing attempt: the id and `maxRetries` never
change; either the attempt succeeded (`completed`, `retries` untouched,
`error` untouched, no re-queue, `completedAt` stamped) or
`handleJobError` ran (`retries` incremented; re-queued `pending` while
below `maxRetries`, terminal `failed` with `completedAt` otherwise). -/
theorem processJobRun_spec (env : Env) (t : Nat) (j : QAJob) :
    (processJobRun env t j).job.id = j.id ∧
    (processJobRun env t j).job.maxRetries = j.maxRetries ∧
    (((processJobRun env t j).requeue = false ∧
      (processJobRun env t j).job.status = Status.completed ∧
      (processJobRun env t j).job.retries = j.retries ∧
      (processJobRun env t j).job.error = j.error ∧
      (processJobRun env t j).job.completedAt = some t) ∨
     ((processJobRun env t j).job.retries = j.retries + 1 ∧
      (((processJobRun env t j).requeue = true ∧
        (processJobRun env t j).job.status = Status.pending ∧
        j.retries + 1 < j.maxRetries) ∨
       ((processJobRun env t j).requeue = false ∧
        (processJobRun env t j).job.status = Status.failed ∧
        (processJobRun env t j).job.completedAt = some t ∧
        ¬ j.retries + 1 < j.maxRetries)))) := by
  obtain ⟨hst, hrt, hmx, hid, herr, hsh, hrw, hcr, hart, href, hcmp, hstart⟩ :=
    executeQAProcessing_frame env j
  cases her : (executeQAProcessing env j).result with
  | error e =>
    rw [processJobRun_error env t j e her]
    by_cases h : j.retries + 1 < j.maxRetries
    · have h' : (executeQAProcessing env j).job.retries + 1 <
          (executeQAProcessing env j).job.maxRetries := by rw [hrt, hmx]; exact h
      rw [handleJobError_retry t _ e h']
      simp [hrt, hmx, hid, h]
    · have h' : ¬ (executeQAProcessing env j).job.retries + 1 <
          (executeQAProcessing env j).job.maxRetries := by rw [hrt, hmx]; exact h
      rw [handleJobError_fail t _ e h']
      simp [hrt, hmx, hid, h]
  | ok result =>
    rw [processJobRun_ok env t j result her]
    obtain ⟨f1, f2, f3, f4, f5, f6, f7, f8, f9, f10, f11, f12⟩ :=
      finalizeJob_fst env t result (executeQAProcessing env j).job
    exact ⟨f4.trans hid, f3.trans hmx,
      Or.inl ⟨rfl, f1, f2.trans hrt, f5.trans herr, f6⟩⟩

/-- `executeQAProcessing` when the Render stage throws: the only log
pushed before the throw survives, only Render was called, and the error
propagates. -/
theorem executeQAProcessing_renderFail (env : Env) (j : QAJob) (e : String)
    (hps : processScreenshots env = Except.error e) :
    executeQAProcessing env j =
      ⟨pushLog j "Starting screenshot generation...", [StageCall.render],
       Except.error e⟩ := by
  unfold executeQAProcessing
  rw [hps]

/-- `executeQAProcessing` when Render succeeds but the job has no
references (or no screenshots): Analyze and Report are skipped with a
single skip line; the result carries no analysis and no report URL. -/
theorem executeQAProcessing_skip (env : Env) (j : QAJob) (sr : ScreenshotResult)
    (hps : processScreenshots env = Except.ok sr)
    (hcond : ¬ (0 < sr.screenshots.length ∧ 0 < j.references.length)) :
    executeQAProcessing env j =
      ⟨pushLog (pushLogs (pushLog j "Starting screenshot generation...")
          sr.processingLogs)
        "⚠️ Skipping AI analysis and PDF generation - no screenshots or references available",
       [StageCall.render],
       Except.ok ⟨sr.screenshots, sr.modelStats, none, none⟩⟩ := by
  unfold executeQAProcessing
  rw [hps]
  simp only [pushLog_references, pushLogs_references]
  rw [if_neg hcond]

/-- The `Model statistics: …` log pushed before the Analyze call. -/
def modelStatsPreLog : Option ModelStats → List String
  | some ms =>
    [s!"Model statistics: {ms.triangles} triangles, {ms.meshCount} meshes, {ms.materialCount} materials, {ms.fileSize / (1024 * 1024)}MB"]
  | none => []

/-- `executeQAProcessing` when Render succeeds, the job has references,
and the Analyze call throws: the degrade is caught and appends exactly
the two lines `❌ AI analysis failed: …` and `⚠️ Continuing without AI
analysis and PDF report`; the attempt still resolves, with no analysis
and no report URL, and the PDF collaborator is never called. -/
theorem executeQAProcessing_analyzeDegrade (env : Env) (j : QAJob)
    (sr : ScreenshotResult) (e : String)
    (hps : processScreenshots env = Except.ok sr)
    (hcond : 0 < sr.screenshots.length ∧ 0 < j.references.length)
    (ha : env.analyzeScreenshots = Except.error e) :
    executeQAProcessing env j =
      ⟨pushLogs j
         (["Starting screenshot generation..."] ++ sr.processingLogs ++
          [s!"Starting AI analysis with {sr.screenshots.length} screenshots and {j.references.length} references..."] ++
          modelStatsPreLog sr.modelStats ++
          [s!"❌ AI analysis failed: {e}",
           "⚠️ Continuing without AI analysis and PDF report"]),
       [StageCall.render, StageCall.analyze],
       Except.ok ⟨sr.screenshots, sr.modelStats, none, none⟩⟩ := by
  unfold executeQAProcessing
  rw [hps]
  simp only [pushLog_references, pushLogs_references]
  rw [if_pos hcond, ha]
  cases hms : sr.modelStats <;>
    simp [pushLog, pushLogs, modelStatsPreLog, hms]

/-- The `Similarity scores - …` log pushed after a successful Analyze. -/
def scoresLog : Option AiScores → List String
  | some sc =>
    [s!"Similarity scores - Silhouette: {sc.silhouette}%, Proportion: {sc.proportion}%, Color/Material: {sc.colorMaterial}%, Overall: {sc.overall}%"]
  | none => []

/-- The three fixed logs of a successful Analyze call. -/
def analyzeOkLogs (ana : AiAnalysis) : List String :=
  ["✅ AI analysis completed successfully",
   s!"Analysis status: {ana.status}",
   s!"Found {ana.differences.length} differences"] ++ scoresLog ana.scores

/-- `executeQAProcessing` when Render and Analyze succeed but the PDF
report generation throws: the degrade is caught and appends exactly the
two lines `❌ PDF generation failed: …` and `⚠️ Continuing without PDF
report`; the attempt resolves with the analysis but no report URL. -/
theorem executeQAProcessing_pdfDegrade (env : Env) (j : QAJob)
    (sr : ScreenshotResult) (ana : AiAnalysis) (e : String)
    (hps : processScreenshots env = Except.ok sr)
    (hcond : 0 < sr.screenshots.length ∧ 0 < j.references.length)
    (ha : env.analyzeScreenshots = Except.ok ana)
    (hpdf : env.generateQAReport = Except.error e) :
    executeQAProcessing env j =
      ⟨{ (pushLogs j
           (["Starting screenshot generation..."] ++ sr.processingLogs ++
            [s!"Starting AI analysis with {sr.screenshots.length} screenshots and {j.references.length} references..."] ++
            modelStatsPreLog sr.modelStats ++ analyzeOkLogs ana ++
            ["Starting PDF report generation...",
             s!"❌ PDF generation failed: {e}",
             "⚠️ Continuing without PDF report"])) with
          aiAnalysis := some ana
          screenshots := some sr.screenshots
          modelStats := sr.modelStats },
       [StageCall.render, StageCall.analyze, StageCall.pdf],
       Except.ok ⟨sr.screenshots, sr.modelStats, some ana, none⟩⟩ := by
  unfold executeQAProcessing
  rw [hps]
  simp only [pushLog_references, pushLogs_references]
  rw [if_pos hcond, ha, hpdf]
  cases hms : sr.modelStats <;> cases hsc : ana.scores <;>
    simp [pushLog, pushLogs, modelStatsPreLog, analyzeOkLogs, scoresLog, hms, hsc]

/-- `executeQAProcessing` when every stage succeeds: the report URL is
returned (normalised through the JS `pdfUrl || undefined`). -/
theorem executeQAProcessing_allOk (env : Env) (j : QAJob)
    (sr : ScreenshotResult) (ana : AiAnalysis) (pr : PdfResult)
    (hps : processScreenshots env = Except.ok sr)
    (hcond : 0 < sr.screenshots.length ∧ 0 < j.references.length)
    (ha : env.analyzeScreenshots = Except.ok ana)
    (hpdf : env.generateQAReport = Except.ok pr) :
    executeQAProcessing env j =
      ⟨{ (pushLogs j
           (["Starting screenshot generation..."] ++ sr.processingLogs ++
            [s!"Starting AI analysis with {sr.screenshots.length} screenshots and {j.references.length} references..."] ++
            modelStatsPreLog sr.modelStats ++ analyzeOkLogs ana ++
            ["Starting PDF report generation..."] ++ pr.processingLogs ++
            [s!"✅ PDF report generated: {pr.pdfUrl}"])) with
          aiAnalysis := some ana
          screenshots := some sr.screenshots
          modelStats := sr.modelStats },
       [StageCall.render, StageCall.analyze, StageCall.pdf],
       Except.ok ⟨sr.screenshots, sr.modelStats, some ana,
         if pr.pdfUrl = "" then none else some pr.pdfUrl⟩⟩ := by
  unfold executeQAProcessing
  rw [hps]
  simp only [pushLog_references, pushLogs_references]
  rw [if_pos hcond, ha, hpdf]
  cases hms : sr.modelStats <;> cases hsc : ana.scores <;>
    simp [pushLog, pushLogs, modelStatsPreLog, analyzeOkLogs, scoresLog, hms, hsc]

/-! ## Case analyses of the three step functions -/

theorem addJob_cases (st : SysState) (i : QAJobInput) (id0 : String) (t : Nat) :
    (addJob st i id0 t).1 = { st with usedIds := id0 :: st.usedIds } ∨
    (addJob st i id0 t).1 =
      { jobs := cleanupOldJobs (mapSet st.jobs id0 (newJob i id0 t))
        queue := st.queue ++ [id0]
        inFlight := st.inFlight
        usedIds := id0 :: st.usedIds } := by
  unfold addJob addNewJob
  split
  · split
    · left; rfl
    · right; rfl
  · right; rfl

theorem beginJob_cases (t : Nat) (st : SysState) :
    (st.queue = [] ∧ beginJob t st = st) ∨
    (∃ id rest, st.queue = id :: rest ∧ mapGet st.jobs id = none ∧
      beginJob t st = { st with queue := rest }) ∨
    (∃ id rest j, st.queue = id :: rest ∧ mapGet st.jobs id = some j ∧
      beginJob t st =
        { st with
          queue := rest
          jobs := mapSet st.jobs id (startJob t j)
          inFlight := some id }) := by
  unfold beginJob
  cases hq : st.queue with
  | nil => exact Or.inl ⟨rfl, rfl⟩
  | cons id rest =>
    cases hg : mapGet st.jobs id with
    | none =>
      refine Or.inr (Or.inl ⟨id, rest, rfl, hg, ?_⟩)
      simp [hg]
    | some j =>
      refine Or.inr (Or.inr ⟨id, rest, j, rfl, hg, ?_⟩)
      simp [hg]

theorem finishJob_cases (env : Env) (t : Nat) (st : SysState) :
    (st.inFlight = none ∧ finishJob env t st = st) ∨
    (∃ id, st.inFlight = some id ∧ mapGet st.jobs id = none ∧
      finishJob env t st = { st with inFlight := none }) ∨
    (∃ id j, st.inFlight = some id ∧ mapGet st.jobs id = some j ∧
      finishJob env t st =
        { st with
          jobs := mapSet st.jobs id (processJobRun env t j).job
          queue :=
            if (processJobRun env t j).requeue then
              st.queue ++ [(processJobRun env t j).job.id]
            else st.queue
          inFlight := none }) := by
  unfold finishJob
  cases hf : st.inFlight with
  | none => exact Or.inl ⟨rfl, rfl⟩
  | some id =>
    cases hg : mapGet st.jobs id with
    | none =>
      refine Or.inr (Or.inl ⟨id, rfl, hg, ?_⟩)
      simp [hg]
    | some j =>
      refine Or.inr (Or.inr ⟨id, j, rfl, hg, ?_⟩)
      simp [hg]

@[simp] theorem startJob_status (t : Nat) (j : QAJob) :
    (startJob t j).status = Status.processing := rfl

@[simp] theorem startJob_retries (t : Nat) (j : QAJob) :
    (startJob t j).retries = j.retries := rfl

@[simp] theorem startJob_maxRetries (t : Nat) (j : QAJob) :
    (startJob t j).maxRetries = j.maxRetries := rfl

@[simp] theorem startJob_id (t : Nat) (j : QAJob) :
    (startJob t j).id = j.id := rfl

@[simp] theorem startJob_error (t : Nat) (j : QAJob) :
    (startJob t j).error = j.error := rfl

@[simp] theorem startJob_references (t : Nat) (j : QAJob) :
    (startJob t j).references = j.references := rfl

@[simp] theorem startJob_processingLogs (t : Nat) (j : QAJob) :
    (startJob t j).processingLogs =
      j.processingLogs ++ [s!"Started processing at {t}"] := rfl

/-! ## The inductive invariant of reachable queue states -/

/-- The invariant maintained by every admission and worker step. -/
structure StateInv (st : SysState) : Prop where
  retriesOk : ∀ id j, mapGet st.jobs id = some j →
    (j.status ≠ Status.failed → j.retries < j.maxRetries) ∧
    (j.status = Status.failed → j.retries = j.maxRetries)
  idOk : ∀ id j, mapGet st.jobs id = some j → j.id = id
  flightOk : ∀ id, st.inFlight = some id →
    ∃ j, mapGet st.jobs id = some j ∧ j.status = Status.processing
  queueStatus : ∀ id, id ∈ st.queue → ∀ j, mapGet st.jobs id = some j →
    j.status = Status.pending
  queueNodup : st.queue.Nodup
  flightNotQueued : ∀ id, st.inFlight = some id → id ∉ st.queue
  jobsUsed : ∀ id j, mapGet st.jobs id = some j → id ∈ st.usedIds
  queueUsed : ∀ id, id ∈ st.queue → id ∈ st.usedIds
  flightUsed : ∀ id, st.inFlight = some id → id ∈ st.usedIds

theorem stateInv_init : StateInv initState := by
  refine ⟨?_, ?_, ?_, ?_, ?_, ?_, ?_, ?_, ?_⟩ <;> simp [initState, mapGet]

theorem stateInv_add (st : SysState) (i : QAJobInput) (id0 : String) (t : Nat)
    (hInv : StateInv st) (hfresh : id0 ∉ st.usedIds) :
    StateInv (addJob st i id0 t).1 := by
  rcases addJob_cases st i id0 t with h | h <;> rw [h]
  · exact
      { retriesOk := hInv.retriesOk
        idOk := hInv.idOk
        flightOk := hInv.flightOk
        queueStatus := hInv.queueStatus
        queueNodup := hInv.queueNodup
        flightNotQueued := hInv.flightNotQueued
        jobsUsed := fun id j hg => List.mem_cons_of_mem _ (hInv.jobsUsed id j hg)
        queueUsed := fun id hm => List.mem_cons_of_mem _ (hInv.queueUsed id hm)
        flightUsed := fun id hm => List.mem_cons_of_mem _ (hInv.flightUsed id hm) }
  · have hq0 : id0 ∉ st.queue := fun hm => hfresh (hInv.queueUsed id0 hm)
    refine
      { retriesOk := ?_
        idOk := ?_
        flightOk := ?_
        queueStatus := ?_
        queueNodup := ?_
        flightNotQueued := ?_
        jobsUsed := ?_
        queueUsed := ?_
        flightUsed := ?_ }
    · intro id j hg
      have hg2 := mapGet_cleanup_mono _ _ _ hg
      rw [mapGet_mapSet] at hg2
      by_cases hid : id = id0
      · rw [if_pos hid] at hg2
        cases hg2
        simp [newJob]
      · rw [if_neg hid] at hg2
        exact hInv.retriesOk id j hg2
    · intro id j hg
      have hg2 := mapGet_cleanup_mono _ _ _ hg
      rw [mapGet_mapSet] at hg2
      by_cases hid : id = id0
      · rw [if_pos hid] at hg2
        cases hg2
        simp [newJob, hid]
      · rw [if_neg hid] at hg2
        exact hInv.idOk id j hg2
    · intro id hm
      simp only [] at hm
      obtain ⟨jf, hgf, hpf⟩ := hInv.flightOk id hm
      have hne : ¬ id = id0 := fun he =>
        hfresh (by rw [← he]; exact hInv.flightUsed id hm)
      refine ⟨jf, ?_, hpf⟩
      apply mapGet_cleanup_processing _ _ _ _ hpf
      rw [mapGet_mapSet, if_neg hne]
      exact hgf
    · intro id hm j hg
      have hg2 := mapGet_cleanup_mono _ _ _ hg
      rw [mapGet_mapSet] at hg2
      simp only [] at hm
      rcases List.mem_append.1 hm with hm | hm
      · have hne : ¬ id = id0 := fun he =>
          hfresh (by rw [← he]; exact hInv.queueUsed id hm)
        rw [if_neg hne] at hg2
        exact hInv.queueStatus id hm j hg2
      · have hid : id = id0 := List.mem_singleton.1 hm
        rw [if_pos hid] at hg2
        cases hg2
        simp [newJob]
    · simp only []
      exact List.Nodup.append hInv.queueNodup (List.nodup_singleton id0)
        (fun x hx hy => hq0 (by rwa [List.mem_singleton.1 hy] at hx))
    · intro id hm
      simp only [] at hm ⊢
      intro hq
      rcases List.mem_append.1 hq with hq | hq
      · exact hInv.flightNotQueued id hm hq
      · exact hfresh (by rw [← List.mem_singleton.1 hq]; exact hInv.flightUsed id hm)
    · intro id j hg
      have hg2 := mapGet_cleanup_mono _ _ _ hg
      rw [mapGet_mapSet] at hg2
      by_cases hid : id = id0
      · simp [hid]
      · rw [if_neg hid] at hg2
        exact List.mem_cons_of_mem _ (hInv.jobsUsed id j hg2)
    · intro id hm
      simp only [] at hm
      rcases List.mem_append.1 hm with hm | hm
      · exact List.mem_cons_of_mem _ (hInv.queueUsed id hm)
      · simp [List.mem_singleton.1 hm]
    · intro id hm
      simp only [] at hm
      exact List.mem_cons_of_mem _ (hInv.flightUsed id hm)

theorem stateInv_begin (t : Nat) (st : SysState) (hInv : StateInv st) :
    StateInv (beginJob t st) := by
  rcases beginJob_cases t st with ⟨hq, he⟩ | ⟨id, rest, hq, hnone, he⟩ |
    ⟨id, rest, j, hq, hsome, he⟩ <;> rw [he]
  · exact hInv
  · have hrest : ∀ x, x ∈ rest → x ∈ st.queue := fun x hx => by
      rw [hq]; exact List.mem_cons_of_mem _ hx
    exact
      { retriesOk := hInv.retriesOk
        idOk := hInv.idOk
        flightOk := hInv.flightOk
        queueStatus := fun x hx => hInv.queueStatus x (hrest x hx)
        queueNodup := by
          have := hInv.queueNodup
          rw [hq] at this
          exact this.of_cons
        flightNotQueued := fun x hx hc => hInv.flightNotQueued x hx (hrest x hc)
        jobsUsed := hInv.jobsUsed
        queueUsed := fun x hx => hInv.queueUsed x (hrest x hx)
        flightUsed := hInv.flightUsed }
  · have hidq : id ∈ st.queue := by rw [hq]; exact List.mem_cons_self id rest
    have hpend : j.status = Status.pending := hInv.queueStatus id hidq j hsome
    have hnd : st.queue.Nodup := hInv.queueNodup
    have hnotin : id ∉ rest := by
      rw [hq] at hnd
      exact (List.nodup_cons.1 hnd).1
    have hrest : ∀ x, x ∈ rest → x ∈ st.queue := fun x hx => by
      rw [hq]; exact List.mem_cons_of_mem _ hx
    refine
      { retriesOk := ?_
        idOk := ?_
        flightOk := ?_
        queueStatus := ?_
        queueNodup := ?_
        flightNotQueued := ?_
        jobsUsed := ?_
        queueUsed := ?_
        flightUsed := ?_ }
    · intro id' j' hg
      simp only [] at hg
      rw [mapGet_mapSet] at hg
      by_cases hid : id' = id
      · rw [if_pos hid] at hg
        cases hg
        have h0 := hInv.retriesOk id j hsome
        constructor
        · intro _
          simpa using (h0.1 (by rw [hpend]; intro hcon; cases hcon))
        · intro hcon
          simp at hcon
      · rw [if_neg hid] at hg
        exact hInv.retriesOk id' j' hg
    · intro id' j' hg
      simp only [] at hg
      rw [mapGet_mapSet] at hg
      by_cases hid : id' = id
      · rw [if_pos hid] at hg
        cases hg
        simp [hid, hInv.idOk id j hsome]
      · rw [if_neg hid] at hg
        exact hInv.idOk id' j' hg
    · intro id' hf
      simp only [] at hf ⊢
      cases hf
      refine ⟨startJob t j, ?_, rfl⟩
      rw [mapGet_mapSet, if_pos rfl]
    · intro id' hm j' hg
      simp only [] at hm hg
      have hne : ¬ id' = id := fun he => hnotin (he ▸ hm)
      rw [mapGet_mapSet, if_neg hne] at hg
      exact hInv.queueStatus id' (hrest id' hm) j' hg
    · simp only []
      rw [hq] at hnd
      exact (List.nodup_cons.1 hnd).2
    · intro id' hf
      simp only [] at hf ⊢
      cases hf
      exact hnotin
    · intro id' j' hg
      simp only [] at hg
      rw [mapGet_mapSet] at hg
      by_cases hid : id' = id
      · rw [hid]
        exact hInv.queueUsed id hidq
      · rw [if_neg hid] at hg
        exact hInv.jobsUsed id' j' hg
    · intro id' hm
      exact hInv.queueUsed id' (hrest id' hm)
    · intro id' hf
      simp only [] at hf
      cases hf
      exact hInv.queueUsed id hidq

theorem stateInv_finish (env : Env) (t : Nat) (st : SysState) (hInv : StateInv st) :
    StateInv (finishJob env t st) := by
  rcases finishJob_cases env t st with ⟨hf, he⟩ | ⟨id, hf, hnone, he⟩ |
    ⟨id, j, hf, hsome, he⟩ <;> rw [he]
  · exact hInv
  · exact
      { retriesOk := hInv.retriesOk
        idOk := hInv.idOk
        flightOk := fun x hx => by cases hx
        queueStatus := hInv.queueStatus
        queueNodup := hInv.queueNodup
        flightNotQueued := fun x hx => by cases hx
        jobsUsed := hInv.jobsUsed
        queueUsed := hInv.queueUsed
        flightUsed := fun x hx => by cases hx }
  · have hproc : j.status = Status.processing := by
      obtain ⟨j2, hg2, hp2⟩ := hInv.flightOk id hf
      rw [hsome] at hg2
      cases hg2
      exact hp2
    have hjid : j.id = id := hInv.idOk id j hsome
    have hflq : id ∉ st.queue := hInv.flightNotQueued id hf
    have hlt : j.retries < j.maxRetries :=
      (hInv.retriesOk id j hsome).1 (by rw [hproc]; intro hcon; cases hcon)
    obtain ⟨sid, smax, sdisj⟩ := processJobRun_spec env t j
    have hqcase :
        ((processJobRun env t j).requeue = true ∧
          (if (processJobRun env t j).requeue then
              st.queue ++ [(processJobRun env t j).job.id]
            else st.queue) = st.queue ++ [(processJobRun env t j).job.id]) ∨
        ((processJobRun env t j).requeue = false ∧
          (if (processJobRun env t j).requeue then
              st.queue ++ [(processJobRun env t j).job.id]
            else st.queue) = st.queue) := by
      by_cases hr : (processJobRun env t j).requeue
      · left; exact ⟨hr, by rw [if_pos hr]⟩
      · right; exact ⟨Bool.of_not_eq_true hr, by rw [if_neg hr]⟩
    refine
      { retriesOk := ?_
        idOk := ?_
        flightOk := ?_
        queueStatus := ?_
        queueNodup := ?_
        flightNotQueued := ?_
        jobsUsed := ?_
        queueUsed := ?_
        flightUsed := ?_ }
    · intro id' j' hg
      simp only [] at hg
      rw [mapGet_mapSet] at hg
      by_cases hid : id' = id
      · rw [if_pos hid] at hg
        cases hg
        rcases sdisj with ⟨_, hst, hrt, _, _⟩ | ⟨hrt, ⟨_, hst, hcnd⟩ | ⟨_, hst, _, hcnd⟩⟩
        · constructor
          · intro _; rw [hrt, smax]; exact hlt
          · intro hcon; rw [hst] at hcon; cases hcon
        · constructor
          · intro _; rw [hrt, smax]; exact hcnd
          · intro hcon; rw [hst] at hcon; cases hcon
        · constructor
          · intro hcon; rw [hst] at hcon; exact absurd rfl hcon
          · intro _; rw [hrt, smax]; omega
      · rw [if_neg hid] at hg
        exact hInv.retriesOk id' j' hg
    · intro id' j' hg
      simp only [] at hg
      rw [mapGet_mapSet] at hg
      by_cases hid : id' = id
      · rw [if_pos hid] at hg
        cases hg
        rw [sid, hjid, hid]
      · rw [if_neg hid] at hg
        exact hInv.idOk id' j' hg
    · intro id' hf'
      simp only [] at hf'
      cases hf'
    · intro id' hm j' hg
      simp only [] at hm hg
      rw [mapGet_mapSet] at hg
      rcases hqcase with ⟨hrq0, hqe⟩ | ⟨hrq0, hqe⟩ <;> rw [hqe] at hm
      · rcases List.mem_append.1 hm with hm | hm
        · have hne : ¬ id' = id := fun he => hflq (he ▸ hm)
          rw [if_neg hne] at hg
          exact hInv.queueStatus id' hm j' hg
        · have hid : id' = (processJobRun env t j).job.id := List.mem_singleton.1 hm
          have hid2 : id' = id := by rw [hid, sid, hjid]
          rw [if_pos hid2] at hg
          cases hg
          rcases sdisj with ⟨hrq, _, _, _, _⟩ | ⟨_, ⟨hrq, hst, _⟩ | ⟨hrq, hst, _, _⟩⟩
          · rw [hrq0] at hrq; cases hrq
          · exact hst
          · rw [hrq0] at hrq; cases hrq
      · have hne : ¬ id' = id := fun he => hflq (he ▸ hm)
        rw [if_neg hne] at hg
        exact hInv.queueStatus id' hm j' hg
    · simp only []
      rcases hqcase with ⟨hrq0, hqe⟩ | ⟨hrq0, hqe⟩ <;> rw [hqe]
      · refine List.Nodup.append hInv.queueNodup (List.nodup_singleton _) ?_
        intro x hx hy
        rw [List.mem_singleton.1 hy, sid, hjid] at hx
        exact hflq hx
      · exact hInv.queueNodup
    · intro id' hf'
      simp only [] at hf'
      cases hf'
    · intro id' j' hg
      simp only [] at hg
      rw [mapGet_mapSet] at hg
      by_cases hid : id' = id
      · rw [hid]
        exact hInv.flightUsed id hf
      · rw [if_neg hid] at hg
        exact hInv.jobsUsed id' j' hg
    · intro id' hm
      simp only [] at hm
      rcases hqcase with ⟨hrq0, hqe⟩ | ⟨hrq0, hqe⟩ <;> rw [hqe] at hm
      · rcases List.mem_append.1 hm with hm | hm
        · exact hInv.queueUsed id' hm
        · rw [List.mem_singleton.1 hm, sid, hjid]
          exact hInv.flightUsed id hf
      · exact hInv.queueUsed id' hm
    · intro id' hf'
      simp only [] at hf'
      cases hf'

/-- Every step preserves the invariant. -/
theorem stateInv_step {st st' : SysState} (hInv : StateInv st)
    (hs : Step st st') : StateInv st' := by
  cases hs with
  | add i id0 t hfresh => exact stateInv_add _ i id0 t hInv hfresh
  | run t hidle hqueue => exact stateInv_begin t _ hInv
  | finish env t id hf => exact stateInv_finish env t _ hInv

/-- Every reachable state satisfies the invariant. -/
theorem reachable_stateInv {st : SysState} (h : Reachable st) : StateInv st := by
  induction h with
  | refl => exact stateInv_init
  | tail hs hstep ih => exact stateInv_step ih hstep

/-- Steps only add generated ids. -/
theorem step_usedIds_subset {st st' : SysState} (hs : Step st st') :
    st.usedIds ⊆ st'.usedIds := by
  cases hs with
  | add i id0 t hfresh =>
    rcases addJob_cases st i id0 t with h | h <;> rw [h] <;>
      exact fun x hx => List.mem_cons_of_mem _ hx
  | run t hidle hqueue =>
    rcases beginJob_cases t st with ⟨_, he⟩ | ⟨id, rest, _, _, he⟩ |
      ⟨id, rest, j, _, _, he⟩ <;> rw [he] <;> exact fun x hx => hx
  | finish env t id hf =>
    rcases finishJob_cases env t st with ⟨_, he⟩ | ⟨id', _, _, he⟩ |
      ⟨id', j, _, _, he⟩ <;> rw [he] <;> exact fun x hx => hx

/-- A record absent under a generated id never reappears: admission only
inserts fresh ids and the worker only rewrites records it found. -/
theorem step_none_stable {st st' : SysState} (hs : Step st st') (id : String)
    (hnone : mapGet st.jobs id = none) (hused : id ∈ st.usedIds) :
    mapGet st'.jobs id = none := by
  cases hs with
  | add i id0 t hfresh =>
    rcases addJob_cases st i id0 t with h | h <;> rw [h]
    · exact hnone
    · have hne : ¬ id = id0 := fun he => hfresh (he ▸ hused)
      apply mapGet_cleanup_none
      rw [mapGet_mapSet, if_neg hne]
      exact hnone
  | run t hidle hqueue =>
    rcases beginJob_cases t st with ⟨_, he⟩ | ⟨id', rest, _, _, he⟩ |
      ⟨id', rest, j, hq, hsome, he⟩ <;> rw [he]
    · exact hnone
    · exact hnone
    · simp only []
      have hne : ¬ id = id' := fun heq => by
        rw [heq, hsome] at hnone; cases hnone
      rw [mapGet_mapSet, if_neg hne]
      exact hnone
  | finish env t id0 hf =>
    rcases finishJob_cases env t st with ⟨_, he⟩ | ⟨id', _, _, he⟩ |
      ⟨id', j, hf', hsome, he⟩ <;> rw [he]
    · exact hnone
    · exact hnone
    · simp only []
      have hne : ¬ id = id' := fun heq => by
        rw [heq, hsome] at hnone; cases hnone
      rw [mapGet_mapSet, if_neg hne]
      exact hnone

/-- The status transitions the spec's state machine allows in one step:
stay put, `pending → processing`, or
`processing → completed | failed | pending`. -/
def statusStepOK (a b : Status) : Bool :=
  a == b ||
  (a == Status.pending && b == Status.processing) ||
  (a == Status.processing &&
    (b == Status.completed || b == Status.failed || b == Status.pending))

@[simp] theorem statusStepOK_refl (a : Status) : statusStepOK a a = true := by
  cases a <;> rfl

/-- Any step moves any stored record's status only along the allowed
transitions. -/
theorem step_statusStepOK {st st' : SysState} (hInv : StateInv st)
    (hs : Step st st') (id : String) (j j' : QAJob)
    (hj : mapGet st.jobs id = some j) (hj' : mapGet st'.jobs id = some j') :
    statusStepOK j.status j'.status = true := by
  cases hs with
  | add i id0 t hfresh =>
    rcases addJob_cases st i id0 t with h | h <;> rw [h] at hj'
    · rw [hj] at hj'; cases hj'; simp
    · simp only [] at hj'
      have hne : ¬ id = id0 := fun he =>
        hfresh (by rw [← he]; exact hInv.jobsUsed id j hj)
      have hj2 := mapGet_cleanup_mono _ _ _ hj'
      rw [mapGet_mapSet, if_neg hne, hj] at hj2
      cases hj2
      simp
  | run t hidle hqueue =>
    rcases beginJob_cases t st with ⟨_, he⟩ | ⟨id', rest, _, _, he⟩ |
      ⟨id', rest, j0, hq, hsome, he⟩ <;> rw [he] at hj'
    · rw [hj] at hj'; cases hj'; simp
    · rw [hj] at hj'; cases hj'; simp
    · simp only [] at hj'
      rw [mapGet_mapSet] at hj'
      by_cases hid : id = id'
      · rw [if_pos hid] at hj'
        cases hj'
        have hpend : j.status = Status.pending := by
          have := hInv.queueStatus id' (by rw [hq]; exact List.mem_cons_self _ _) j0 hsome
          rw [hid, hsome] at hj
          cases hj
          exact this
        rw [hpend]
        rfl
      · rw [if_neg hid, hj] at hj'
        cases hj'
        simp
  | finish env t id0 hf =>
    rcases finishJob_cases env t st with ⟨_, he⟩ | ⟨id', _, _, he⟩ |
      ⟨id', j0, hf', hsome, he⟩ <;> rw [he] at hj'
    · rw [hj] at hj'; cases hj'; simp
    · rw [hj] at hj'; cases hj'; simp
    · simp only [] at hj'
      rw [mapGet_mapSet] at hj'
      by_cases hid : id = id'
      · rw [if_pos hid] at hj'
        cases hj'
        have hj0 : j = j0 := by
          rw [hid, hsome] at hj
          cases hj
          rfl
        have hproc : j.status = Status.processing := by
          obtain ⟨j2, hg2, hp2⟩ := hInv.flightOk id' hf'
          rw [hsome] at hg2
          cases hg2
          rw [hj0]
          exact hp2
        obtain ⟨_, _, sdisj⟩ := processJobRun_spec env t j0
        rw [hproc]
        rcases sdisj with ⟨_, hst, _, _, _⟩ | ⟨_, ⟨_, hst, _⟩ | ⟨_, hst, _, _⟩⟩ <;>
          rw [hst] <;> rfl
      · rw [if_neg hid, hj] at hj'
        cases hj'
        simp

/-! ## Multi-step consequences -/

/-- Once a stored record is `completed` or `failed`, any later reachable
state either no longer stores the id (eviction) or stores it with the
same status. -/
theorem terminal_stable {st st' : SysState} (hr : Reachable st)
    (hs : Relation.ReflTransGen Step st st') (id : String) (j : QAJob)
    (hj : mapGet st.jobs id = some j)
    (hterm : j.status = Status.completed ∨ j.status = Status.failed) :
    (mapGet st'.jobs id = none ∧ id ∈ st'.usedIds) ∨
    (∃ j2, mapGet st'.jobs id = some j2 ∧ j2.status = j.status ∧
      id ∈ st'.usedIds) := by
  induction hs with
  | refl =>
    exact Or.inr ⟨j, hj, rfl, (reachable_stateInv hr).jobsUsed id j hj⟩
  | tail hab hbc ih =>
    rename_i b c
    have hrb : Reachable b := Relation.ReflTransGen.trans hr hab
    rcases ih with ⟨hbn, hbu⟩ | ⟨j2, hbg, hbs, hbu⟩
    · exact Or.inl ⟨step_none_stable hbc id hbn hbu, step_usedIds_subset hbc hbu⟩
    · cases hcg : mapGet c.jobs id with
      | none => exact Or.inl ⟨rfl, step_usedIds_subset hbc hbu⟩
      | some j3 =>
        have hok := step_statusStepOK (reachable_stateInv hrb) hbc id j2 j3 hbg hcg
        refine Or.inr ⟨j3, rfl, ?_, step_usedIds_subset hbc hbu⟩
        rw [← hbs] at hterm ⊢
        rcases hterm with ht | ht <;> rw [ht] at hok ⊢ <;>
          cases h3 : j3.status <;> rw [h3] at hok <;> first | rfl | cases hok

/-! ## Concrete environments and traces -/

/-- Environment whose Render captures one screenshot (front angle) and
whose optional collaborators all throw. -/
def envOne : Env :=
  { setup := none
    shot := fun a => if a = "front" then Except.ok "u1" else Except.error "pagefail"
    modelStats := none
    analyzeScreenshots := Except.error "noai"
    generateQAReport := Except.error "nopdf"
    updateSheet := Except.ok () }

/-- Environment whose Render captures zero screenshots (every angle
fails). -/
def envFail : Env :=
  { setup := none
    shot := fun _ => Except.error "boom"
    modelStats := none
    analyzeScreenshots := Except.error "noai"
    generateQAReport := Except.error "nopdf"
    updateSheet := Except.ok () }

/-- The message thrown by the Render stage when zero screenshots were
captured. -/
def zeroShotsMsg : String :=
  "Screenshot processing failed: No screenshots were successfully captured. Check GLB file validity and model-viewer compatibility."

theorem processScreenshots_envFail :
    processScreenshots envFail = Except.error zeroShotsMsg := rfl

/-- One admission datum of a batch. -/
structure AddSpec where
  inp : QAJobInput
  newId : String
  t : Nat

/-- Fold a batch of admissions over a state. -/
def addMany : List AddSpec → SysState → SysState
  | [], st => st
  | a :: rest, st => addMany rest (addJob st a.inp a.newId a.t).1

theorem addJob_usedIds (st : SysState) (i : QAJobInput) (id0 : String) (t : Nat) :
    ((addJob st i id0 t).1).usedIds = id0 :: st.usedIds := by
  rcases addJob_cases st i id0 t with h | h <;> rw [h]

/-- A batch of admissions with pairwise-distinct, never-before-used ids
is a sequence of admission steps. -/
theorem reachable_addMany (l : List AddSpec) :
    ∀ st : SysState, Reachable st → (l.map (·.newId)).Nodup →
    (∀ a ∈ l, a.newId ∉ st.usedIds) → Reachable (addMany l st) := by
  induction l with
  | nil => intro st h _ _; exact h
  | cons a rest ih =>
    intro st h hnd hfr
    have hstep : Step st (addJob st a.inp a.newId a.t).1 :=
      Step.add st a.inp a.newId a.t (hfr a (List.mem_cons_self a rest))
    have hnd2 : (a.newId :: rest.map (fun x => x.newId)).Nodup := by
      simpa using hnd
    have hnd' := List.nodup_cons.1 hnd2
    apply ih
    · exact h.tail hstep
    · exact hnd'.2
    · intro b hb
      rw [addJob_usedIds]
      intro hmem
      rcases List.mem_cons.1 hmem with he | he
      · exact hnd'.1 (by rw [← he]; exact List.mem_map_of_mem _ hb)
      · exact hfr b (List.mem_cons_of_mem _ hb) he

/-- Batch of `n` admissions with distinct article ids `A⟨i⟩`, job ids
`j⟨i⟩` and creation times `lo + i`. -/
def specRange (lo n : Nat) : List AddSpec :=
  (List.range n).map (fun k =>
    ⟨⟨s!"A{lo + k}", "P", [], none, none⟩, s!"j{lo + k}", lo + k⟩)

/-- Admission input for article `A` (no references, no sheet target). -/
def inputA : QAJobInput := ⟨"A", "P", [], none, none⟩

/-- Admission input for article `B` (one reference image). -/
def inputB : QAJobInput := ⟨"B", "P", ["r1"], none, none⟩

def c1s1 : SysState := (addJob initState inputA "a1" 0).1
def c1s2 : SysState := beginJob 1 c1s1
def c1s3 : SysState := finishJob envOne 2 c1s2
def c1s4 : SysState := (addJob c1s3 inputA "a2" 3).1
def c1s5 : SysState := (addJob c1s4 inputA "a3" 4).1

theorem c1s5_reachable : Reachable c1s5 :=
  Relation.ReflTransGen.tail
    (Relation.ReflTransGen.tail
      (Relation.ReflTransGen.tail
        (Relation.ReflTransGen.tail
          (Relation.ReflTransGen.tail Relation.ReflTransGen.refl
            (Step.add initState inputA "a1" 0 (by decide)))
          (Step.run c1s1 1 (by decide) (by decide)))
        (Step.finish c1s2 envOne 2 "a1" (by decide)))
      (Step.add c1s3 inputA "a2" 3 (by decide)))
    (Step.add c1s4 inputA "a3" 4 (by decide))

def c2s1 : SysState := (addJob initState inputB "b1" 0).1
def c2s2 : SysState := beginJob 1 c2s1
def c2s3 : SysState := finishJob envFail 2 c2s2
def c2s4 : SysState := beginJob 3 c2s3
def c2s5 : SysState := finishJob envFail 4 c2s4
def c2s6 : SysState := beginJob 5 c2s5
def c2s7 : SysState := finishJob envFail 6 c2s6

theorem c2s7_reachable : Reachable c2s7 :=
  Relation.ReflTransGen.tail
    (Relation.ReflTransGen.tail
      (Relation.ReflTransGen.tail
        (Relation.ReflTransGen.tail
          (Relation.ReflTransGen.tail
            (Relation.ReflTransGen.tail
              (Relation.ReflTransGen.tail Relation.ReflTransGen.refl
                (Step.add initState inputB "b1" 0 (by decide)))
              (Step.run c2s1 1 (by decide) (by decide)))
            (Step.finish c2s2 envFail 2 "b1" (by decide)))
          (Step.run c2s3 3 (by decide) (by decide)))
        (Step.finish c2s4 envFail 4 "b1" (by decide)))
      (Step.run c2s5 5 (by decide) (by decide)))
    (Step.finish c2s6 envFail 6 "b1" (by decide))

def c9s1 : SysState := (addJob initState inputB "d1" 0).1
def c9s2 : SysState := beginJob 1 c9s1
def c9s3 : SysState := finishJob envFail 2 c9s2
def c9s4 : SysState := beginJob 3 c9s3
def c9s5 : SysState := finishJob envOne 4 c9s4

theorem c9s5_reachable : Reachable c9s5 :=
  Relation.ReflTransGen.tail
    (Relation.ReflTransGen.tail
      (Relation.ReflTransGen.tail
        (Relation.ReflTransGen.tail
          (Relation.ReflTransGen.tail Relation.ReflTransGen.refl
            (Step.add initState inputB "d1" 0 (by decide)))
          (Step.run c9s1 1 (by decide) (by decide)))
        (Step.finish c9s2 envFail 2 "d1" (by decide)))
      (Step.run c9s3 3 (by decide) (by decide)))
    (Step.finish c9s4 envOne 4 "d1" (by decide))

def c6s1 : SysState := (addJob initState ⟨"A0", "P", [], none, none⟩ "j0" 0).1
def c6s2 : SysState := beginJob 0 c6s1

/-- 100 further admissions while `j0` is processing: the store reaches
101 records with the oldest one in flight. -/
def c6state : SysState := addMany (specRange 1 100) c6s2

theorem c6state_reachable : Reachable c6state := by
  apply reachable_addMany
  · exact Relation.ReflTransGen.tail
      (Relation.ReflTransGen.tail Relation.ReflTransGen.refl
        (Step.add initState ⟨"A0", "P", [], none, none⟩ "j0" 0 (by decide)))
      (Step.run c6s1 0 (by decide) (by decide))
  · decide
  · decide

/-- 101 plain admissions: at the 101st, `cleanupOldJobs` evicts the
oldest (pending) record `j0` while its id stays queued. -/
def c8state : SysState := addMany (specRange 0 101) initState

theorem c8state_reachable : Reachable c8state := by
  apply reachable_addMany
  · exact Relation.ReflTransGen.refl
  · decide
  · decide

/-- A blank record used only to extract concrete jobs from traces. -/
def blankJob : QAJob := newJob inputA "" 0

def c2job : QAJob := (mapGet c2s7.jobs "b1").getD blankJob
def c2s2job : QAJob := (mapGet c2s2.jobs "b1").getD blankJob
def c2s3job : QAJob := (mapGet c2s3.jobs "b1").getD blankJob

theorem c2s2_reachable : Reachable c2s2 :=
  Relation.ReflTransGen.tail
    (Relation.ReflTransGen.tail Relation.ReflTransGen.refl
      (Step.add initState inputB "b1" 0 (by decide)))
    (Step.run c2s1 1 (by decide) (by decide))

/-! ## C3 -/

/-- **C3**: in every reachable state, every stored job has
`retries ≤ maxRetries`, and a `failed` job has `retries = maxRetries`
(a job only returns to `pending` after a failure while `retries` is
still strictly below `maxRetries`, see `handleJobError_retry`). -/
theorem c3_retries_invariant (st : SysState) (hr : Reachable st)
    (id : String) (j : QAJob) (hj : mapGet st.jobs id = some j) :
    j.retries ≤ j.maxRetries ∧
    (j.status = Status.failed → j.retries = j.maxRetries) := by
  have h := (reachable_stateInv hr).retriesOk id j hj
  refine ⟨?_, h.2⟩
  by_cases hf : j.status = Status.failed
  · exact le_of_eq (h.2 hf)
  · exact le_of_lt (h.1 hf)

theorem c3_retries_invariant_witness :
    mapGet c2s7.jobs "b1" = some c2job ∧
    (c2job.retries ≤ c2job.maxRetries ∧
      (c2job.status = Status.failed → c2job.retries = c2job.maxRetries)) :=
  ⟨by decide, c3_retries_invariant c2s7 c2s7_reachable "b1" c2job (by decide)⟩

/-! ## C7 -/

/-- **C7**: along any step between reachable states a stored job's
status moves only along
`pending → processing → completed | failed | pending` (or stays put),
and once a job is `completed` or `failed` no later sequence of steps
ever changes its status again. -/
theorem c7_monotonic_terminal :
    (∀ st st', Reachable st → Step st st' →
      ∀ id j j', mapGet st.jobs id = some j → mapGet st'.jobs id = some j' →
        statusStepOK j.status j'.status = true) ∧
    (∀ st st', Reachable st → Relation.ReflTransGen Step st st' →
      ∀ id j, mapGet st.jobs id = some j →
        (j.status = Status.completed ∨ j.status = Status.failed) →
        ∀ j', mapGet st'.jobs id = some j' → j'.status = j.status) := by
  constructor
  · intro st st' hr hs id j j' hj hj'
    exact step_statusStepOK (reachable_stateInv hr) hs id j j' hj hj'
  · intro st st' hr hs id j hj hterm j' hj'
    rcases terminal_stable hr hs id j hj hterm with ⟨hn, _⟩ | ⟨j2, hg, hstat, _⟩
    · rw [hn] at hj'; cases hj'
    · rw [hg] at hj'; cases hj'; exact hstat

theorem c7_monotonic_terminal_witness :
    mapGet c2s2.jobs "b1" = some c2s2job ∧
    mapGet c2s3.jobs "b1" = some c2s3job ∧
    statusStepOK c2s2job.status c2s3job.status = true ∧
    c2job.status = c2job.status :=
  ⟨by decide, by decide,
   c7_monotonic_terminal.1 c2s2 c2s3 c2s2_reachable
     (Step.finish c2s2 envFail 2 "b1" (by decide)) "b1" c2s2job c2s3job
     (by decide) (by decide),
   c7_monotonic_terminal.2 c2s7 c2s7 c2s7_reachable Relation.ReflTransGen.refl
     "b1" c2job (by decide) (Or.inr (by decide)) c2job (by decide)⟩

/-! ## C2 -/

/-- A Render attempt whose browser setup works but in which every
per-angle screenshot capture throws: zero images result. -/
def RenderFails (env : Env) : Prop :=
  env.setup = none ∧ ∀ a, ∃ m, env.shot a = Except.error m

theorem processScreenshots_zero (env : Env) (h : RenderFails env) :
    processScreenshots env = Except.error zeroShotsMsg := by
  obtain ⟨hsetup, hshot⟩ := h
  have hnone : ∀ a, (env.shot a).toOption = none := fun a => by
    obtain ⟨m, hm⟩ := hshot a
    rw [hm]
    rfl
  unfold processScreenshots
  rw [hsetup]
  simp [screenshotAngles, zeroShotsMsg, hnone]

/-- **C2**: when the worker finishes an attempt whose Render stage
yields zero images, the failure goes through the retry policy: `retries`
is incremented, the zero-image message is stored in `error` and appended
to `processingLogs`; below `maxRetries` the job is set back to `pending`
and its id appended to the queue tail, otherwise it becomes `failed`
with `completedAt` set.  After three such attempts on a fresh job
(`maxRetries = 3`), the job is `failed` with `retries = 3` and `error`
equal to the Render failure message. -/
theorem c2_zero_render_retry (st : SysState) (env : Env) (t : Nat)
    (id : String) (j : QAJob)
    (hflight : st.inFlight = some id) (hj : mapGet st.jobs id = some j)
    (hrf : RenderFails env) :
    (∃ j', mapGet (finishJob env t st).jobs id = some j' ∧
      j'.retries = j.retries + 1 ∧
      j'.error = some zeroShotsMsg ∧
      j'.processingLogs =
        j.processingLogs ++ ["Starting screenshot generation...",
          s!"Error (attempt {j.retries + 1}): {zeroShotsMsg}"] ++
        (if j.retries + 1 < j.maxRetries
         then [s!"Retry scheduled ({j.retries + 1}/{j.maxRetries})"]
         else [s!"Failed permanently after {j.retries + 1} attempts"]) ∧
      (if j.retries + 1 < j.maxRetries
       then j'.status = Status.pending ∧
         (finishJob env t st).queue = st.queue ++ [j.id]
       else j'.status = Status.failed ∧ j'.completedAt = some t ∧
         (finishJob env t st).queue = st.queue)) ∧
    (mapGet c2s7.jobs "b1").map
        (fun jf => (jf.status, jf.retries, jf.maxRetries, jf.error)) =
      some (Status.failed, 3, 3, some zeroShotsMsg) := by
  refine ⟨?_, by decide⟩
  have hps := processScreenshots_zero env hrf
  have hexec := executeQAProcessing_renderFail env j zeroShotsMsg hps
  rcases finishJob_cases env t st with ⟨hf0, _⟩ | ⟨id0, hf0, hn0, _⟩ |
    ⟨id0, j0, hf0, hg0, he⟩
  · rw [hflight] at hf0; cases hf0
  · rw [hflight] at hf0
    cases hf0
    rw [hj] at hn0
    cases hn0
  · have hid0 : id0 = id := by
      rw [hflight] at hf0
      cases hf0
      rfl
    rw [hid0] at hg0 he
    have hj0 : j0 = j := by
      rw [hj] at hg0
      cases hg0
      rfl
    rw [hj0] at he
    rw [he]
    have her : (executeQAProcessing env j).result = Except.error zeroShotsMsg := by
      rw [hexec]
    have hrun := processJobRun_error env t j zeroShotsMsg her
    have hejob : (executeQAProcessing env j).job =
        pushLog j "Starting screenshot generation..." := by rw [hexec]
    by_cases hret : j.retries + 1 < j.maxRetries
    · have hret' : (executeQAProcessing env j).job.retries + 1 <
          (executeQAProcessing env j).job.maxRetries := by
        rw [hejob]
        simpa using hret
      have hh := handleJobError_retry t (executeQAProcessing env j).job
        zeroShotsMsg hret'
      refine ⟨(processJobRun env t j).job, ?_, ?_, ?_, ?_, ?_⟩
      · simp only []
        rw [mapGet_mapSet, if_pos rfl]
      · rw [hrun, hh]
        simp [hejob]
      · rw [hrun, hh]
      · rw [hrun, hh, if_pos hret]
        simp [hejob, pushLog]
      · rw [if_pos hret]
        constructor
        · rw [hrun, hh]
        · simp only []
          rw [hrun, hh]
          simp [hejob]
    · have hret' : ¬ ((executeQAProcessing env j).job.retries + 1 <
          (executeQAProcessing env j).job.maxRetries) := by
        rw [hejob]
        simpa using hret
      have hh := handleJobError_fail t (executeQAProcessing env j).job
        zeroShotsMsg hret'
      refine ⟨(processJobRun env t j).job, ?_, ?_, ?_, ?_, ?_⟩
      · simp only []
        rw [mapGet_mapSet, if_pos rfl]
      · rw [hrun, hh]
        simp [hejob]
      · rw [hrun, hh]
      · rw [hrun, hh, if_neg hret]
        simp [hejob, pushLog]
      · rw [if_neg hret]
        refine ⟨?_, ?_, ?_⟩
        · rw [hrun, hh]
        · rw [hrun, hh]
        · simp only []
          rw [hrun, hh]
          simp

/-- With a successful Render, `executeQAProcessing` always resolves:
Analyze/Report failures are degraded, never re-thrown. -/
theorem executeQAProcessing_result_ok (env : Env) (j : QAJob)
    (sr : ScreenshotResult) (hps : processScreenshots env = Except.ok sr) :
    ∃ r, (executeQAProcessing env j).result = Except.ok r := by
  unfold executeQAProcessing
  rw [hps]
  simp only []
  split
  · cases ha : env.analyzeScreenshots with
    | error e => cases hms : sr.modelStats <;> exact ⟨_, rfl⟩
    | ok ana =>
      cases hpdf : env.generateQAReport with
      | error e =>
        cases hms : sr.modelStats <;> cases hsc : ana.scores <;> exact ⟨_, rfl⟩
      | ok pr =>
        cases hms : sr.modelStats <;> cases hsc : ana.scores <;> exact ⟨_, rfl⟩
  · exact ⟨_, rfl⟩

/-- The pipeline body never calls the sheet update itself. -/
theorem executeQAProcessing_no_sheet (env : Env) (j : QAJob) :
    StageCall.sheet ∉ (executeQAProcessing env j).calls := by
  unfold executeQAProcessing
  cases hps : processScreenshots env with
  | error e => simp
  | ok sr =>
    simp only []
    split
    · cases ha : env.analyzeScreenshots with
      | error e => cases hms : sr.modelStats <;> simp
      | ok ana =>
        cases hpdf : env.generateQAReport with
        | error e =>
          cases hms : sr.modelStats <;> cases hsc : ana.scores <;> simp
        | ok pr =>
          cases hms : sr.modelStats <;> cases hsc : ana.scores <;> simp
    · simp

/-! ## C4 -/

def c4s1 : SysState := (addJob initState inputA "e1" 0).1
def c4s2 : SysState := beginJob 1 c4s1
def c4s3 : SysState := finishJob envFail 2 c4s2
def c4s4 : SysState := beginJob 3 c4s3
def c4s5 : SysState := finishJob envFail 4 c4s4
def c4s6 : SysState := beginJob 5 c4s5
def c4s7 : SysState := finishJob envFail 6 c4s6

theorem c4s7_reachable : Reachable c4s7 :=
  Relation.ReflTransGen.tail
    (Relation.ReflTransGen.tail
      (Relation.ReflTransGen.tail
        (Relation.ReflTransGen.tail
          (Relation.ReflTransGen.tail
            (Relation.ReflTransGen.tail
              (Relation.ReflTransGen.tail Relation.ReflTransGen.refl
                (Step.add initState inputA "e1" 0 (by decide)))
              (Step.run c4s1 1 (by decide) (by decide)))
            (Step.finish c4s2 envFail 2 "e1" (by decide)))
          (Step.run c4s3 3 (by decide) (by decide)))
        (Step.finish c4s4 envFail 4 "e1" (by decide)))
      (Step.run c4s5 5 (by decide) (by decide)))
    (Step.finish c4s6 envFail 6 "e1" (by decide))

/-- **C4 counterexample**: a job admitted with an empty references list
whose Render stage yields zero images on three consecutive attempts ends
`failed`, not `completed` — the claim's "never Failed" does not hold
unconditionally. -/
theorem c4_empty_refs_can_fail :
    Reachable c4s7 ∧
    (mapGet c4s7.jobs "e1").map (fun j => (j.references, j.status)) =
      some (([] : List String), Status.failed) :=
  ⟨c4s7_reachable, by decide⟩

/-- **C4 (amended)**: provided the Render stage of the attempt succeeds,
a job with an empty references list completes: status `completed`,
Analyze never invoked (nor any later collaborator), and the final record
carries no analysis verdict and no report URL. -/
theorem c4_empty_refs_completes (st : SysState) (env : Env) (t : Nat)
    (id : String) (j : QAJob) (sr : ScreenshotResult)
    (hflight : st.inFlight = some id) (hj : mapGet st.jobs id = some j)
    (href : j.references = [])
    (hps : processScreenshots env = Except.ok sr) :
    ∃ j', mapGet (finishJob env t st).jobs id = some j' ∧
      j'.status = Status.completed ∧
      j'.aiAnalysis = none ∧
      j'.pdfUrl = none ∧
      (processJobRun env t j).calls = [StageCall.render] := by
  have hcond : ¬ (0 < sr.screenshots.length ∧ 0 < j.references.length) := by
    rw [href]
    simp
  have hexec := executeQAProcessing_skip env j sr hps hcond
  have her : (executeQAProcessing env j).result =
      Except.ok ⟨sr.screenshots, sr.modelStats, none, none⟩ := by rw [hexec]
  have hrun := processJobRun_ok env t j ⟨sr.screenshots, sr.modelStats, none, none⟩ her
  rcases finishJob_cases env t st with ⟨hf0, _⟩ | ⟨id0, hf0, hn0, _⟩ |
    ⟨id0, j0, hf0, hg0, he⟩
  · rw [hflight] at hf0; cases hf0
  · rw [hflight] at hf0
    cases hf0
    rw [hj] at hn0
    cases hn0
  · have hid0 : id0 = id := by
      rw [hflight] at hf0
      cases hf0
      rfl
    rw [hid0] at hg0 he
    have hj0 : j0 = j := by
      rw [hj] at hg0
      cases hg0
      rfl
    rw [hj0] at he
    rw [he]
    obtain ⟨f1, f2, f3, f4, f5, f6, f7, f8, f9, f10, f11, f12⟩ :=
      finalizeJob_fst env t ⟨sr.screenshots, sr.modelStats, none, none⟩
        (executeQAProcessing env j).job
    refine ⟨(processJobRun env t j).job, ?_, ?_, ?_, ?_, ?_⟩
    · simp only []
      rw [mapGet_mapSet, if_pos rfl]
    · rw [hrun]
      exact f1
    · rw [hrun]
      exact f7
    · rw [hrun]
      exact f8
    · rw [hrun]
      simp only []
      have hsnd := finalizeJob_snd env t ⟨sr.screenshots, sr.modelStats, none, none⟩
        (executeQAProcessing env j).job
      rw [hsnd]
      simp [truthyStr, hexec]

def c1s2job : QAJob := (mapGet c1s2.jobs "a1").getD blankJob

def srOne : ScreenshotResult :=
  (processScreenshots envOne).toOption.getD ⟨[], none, []⟩

theorem c1s2_reachable : Reachable c1s2 :=
  Relation.ReflTransGen.tail
    (Relation.ReflTransGen.tail Relation.ReflTransGen.refl
      (Step.add initState inputA "a1" 0 (by decide)))
    (Step.run c1s1 1 (by decide) (by decide))

theorem c4_empty_refs_completes_witness :
    c1s2.inFlight = some "a1" ∧
    mapGet c1s2.jobs "a1" = some c1s2job ∧
    c1s2job.references = [] ∧
    (∃ j', mapGet (finishJob envOne 2 c1s2).jobs "a1" = some j' ∧
      j'.status = Status.completed ∧
      j'.aiAnalysis = none ∧
      j'.pdfUrl = none ∧
      (processJobRun envOne 2 c1s2job).calls = [StageCall.render]) :=
  ⟨by decide, by decide, by decide,
   c4_empty_refs_completes c1s2 envOne 2 "a1" c1s2job srOne
     (by decide) (by decide) (by decide) rfl⟩

theorem c2_zero_render_retry_witness :
    c2s2.inFlight = some "b1" ∧
    mapGet c2s2.jobs "b1" = some c2s2job ∧
    (∃ j', mapGet (finishJob envFail 2 c2s2).jobs "b1" = some j' ∧
      j'.retries = c2s2job.retries + 1 ∧
      j'.error = some zeroShotsMsg) :=
  ⟨by decide, by decide, by
    obtain ⟨⟨j', h1, h2, h3, _, _⟩, _⟩ :=
      c2_zero_render_retry c2s2 envFail 2 "b1" c2s2job (by decide) (by decide)
        ⟨rfl, fun _ => ⟨"boom", rfl⟩⟩
    exact ⟨j', h1, h2, h3⟩⟩

/-! ## C9 -/

def c9s5job : QAJob := (mapGet c9s5.jobs "d1").getD blankJob

/-- **C9**: the success path never clears the `error` field — an attempt
that completes leaves `error` exactly as it was, so a job that failed
earlier and then completed carries status `completed` together with the
last failed attempt's error message (shown by the concrete two-attempt
trace `c9s5`). -/
theorem c9_error_survives_success (st : SysState) (env : Env) (t : Nat)
    (id : String) (j : QAJob) (sr : ScreenshotResult)
    (hflight : st.inFlight = some id) (hj : mapGet st.jobs id = some j)
    (hps : processScreenshots env = Except.ok sr) :
    (∃ j', mapGet (finishJob env t st).jobs id = some j' ∧
      j'.status = Status.completed ∧
      j'.error = j.error ∧
      j'.completedAt = some t) ∧
    (mapGet c9s5.jobs "d1").map (fun jf => (jf.status, jf.error)) =
      some (Status.completed, some zeroShotsMsg) := by
  refine ⟨?_, by decide⟩
  obtain ⟨r, her⟩ := executeQAProcessing_result_ok env j sr hps
  have hrun := processJobRun_ok env t j r her
  obtain ⟨hst, hrt, hmx, hid, herr, hsh, hrw, hcr, hart, href, hcmp, hstart⟩ :=
    executeQAProcessing_frame env j
  rcases finishJob_cases env t st with ⟨hf0, _⟩ | ⟨id0, hf0, hn0, _⟩ |
    ⟨id0, j0, hf0, hg0, he⟩
  · rw [hflight] at hf0; cases hf0
  · rw [hflight] at hf0
    cases hf0
    rw [hj] at hn0
    cases hn0
  · have hid0 : id0 = id := by
      rw [hflight] at hf0
      cases hf0
      rfl
    rw [hid0] at hg0 he
    have hj0 : j0 = j := by
      rw [hj] at hg0
      cases hg0
      rfl
    rw [hj0] at he
    rw [he]
    obtain ⟨f1, f2, f3, f4, f5, f6, f7, f8, f9, f10, f11, f12⟩ :=
      finalizeJob_fst env t r (executeQAProcessing env j).job
    refine ⟨(processJobRun env t j).job, ?_, ?_, ?_, ?_⟩
    · simp only []
      rw [mapGet_mapSet, if_pos rfl]
    · rw [hrun]
      exact f1
    · rw [hrun]
      exact f5.trans herr
    · rw [hrun]
      exact f6

theorem c9_error_survives_success_witness :
    c9s4.inFlight = some "d1" ∧
    (∃ j', mapGet (finishJob envOne 4 c9s4).jobs "d1" = some j' ∧
      j'.status = Status.completed ∧
      j'.error = ((mapGet c9s4.jobs "d1").getD blankJob).error ∧
      j'.completedAt = some 4) :=
  ⟨by decide,
   (c9_error_survives_success c9s4 envOne 4 "d1"
     ((mapGet c9s4.jobs "d1").getD blankJob) srOne
     (by decide) (by decide) rfl).1⟩

/-! ## C10 -/

/-- **C10**: the sheet update (Publish) runs exactly when `job.sheetId`,
`job.rowIndex` and the produced report URL are all truthy — in
particular never on the error path — and a job with `rowIndex = 0`
(falsy in JS) is never published: its attempt still completes and the
success tail appends no sheet-related log line at all (no "skipped"
entry exists in the code). -/
theorem c10_publish_gating (env : Env) (t : Nat) (j : QAJob) :
    (StageCall.sheet ∉ (executeQAProcessing env j).calls) ∧
    (∀ r, (executeQAProcessing env j).result = Except.ok r →
      (StageCall.sheet ∈ (processJobRun env t j).calls ↔
        (truthyStr j.sheetId && truthyNat j.rowIndex && truthyStr r.pdfUrl)
          = true)) ∧
    (∀ r, (executeQAProcessing env j).result = Except.ok r →
      j.rowIndex = some 0 →
      (processJobRun env t j).job.status = Status.completed ∧
      StageCall.sheet ∉ (processJobRun env t j).calls ∧
      (processJobRun env t j).job.processingLogs =
        (executeQAProcessing env j).job.processingLogs ++
          [s!"Completed successfully at {t}",
           s!"Generated {r.screenshots.length} screenshots"] ++
          aiVerdictLog r.aiAnalysis ++ pdfUrlLog r.pdfUrl ++
          modelStatsFinalLog r.modelStats) := by
  obtain ⟨hst, hrt, hmx, hid, herr, hsh, hrw, hcr, hart, href, hcmp, hstart⟩ :=
    executeQAProcessing_frame env j
  refine ⟨executeQAProcessing_no_sheet env j, ?_, ?_⟩
  · intro r her
    rw [processJobRun_ok env t j r her]
    simp only []
    have hsnd := finalizeJob_snd env t r (executeQAProcessing env j).job
    rw [hsh, hrw] at hsnd
    rw [hsnd]
    by_cases hb : (truthyStr j.sheetId && truthyNat j.rowIndex && truthyStr r.pdfUrl) = true
    · rw [if_pos hb]
      simp [hb]
    · rw [if_neg hb]
      simp [hb]
      intro hmem
      exact absurd hmem (executeQAProcessing_no_sheet env j)
  · intro r her hrow
    have hfalse : (truthyStr j.sheetId && truthyNat j.rowIndex && truthyStr r.pdfUrl)
        = false := by
      rw [hrow]
      simp [truthyNat]
    rw [processJobRun_ok env t j r her]
    simp only []
    have hsnd := finalizeJob_snd env t r (executeQAProcessing env j).job
    rw [hsh, hrw] at hsnd
    rw [hsnd, hfalse]
    obtain ⟨f1, _⟩ := finalizeJob_fst env t r (executeQAProcessing env j).job
    have hlogs := finalizeJob_logs env t r (executeQAProcessing env j).job
    rw [hsh, hrw] at hlogs
    rw [hlogs, hfalse]
    refine ⟨f1, ?_, ?_⟩
    · simp
      exact executeQAProcessing_no_sheet env j
    · simp [sheetAttemptLogs]

/-- Admission input with a sheet target whose row index is `0`. -/
def inputC : QAJobInput := ⟨"C", "P", [], some "sheet1", some 0⟩

def c10s1 : SysState := (addJob initState inputC "x1" 0).1
def c10s2 : SysState := beginJob 1 c10s1
def c10job : QAJob := (mapGet c10s2.jobs "x1").getD blankJob

/-- The pipeline result of `envOne` on a no-references job. -/
def r0 : QAResult := ⟨["u1"], none, none, none⟩

theorem c10_publish_gating_witness :
    (executeQAProcessing envOne c10job).result = Except.ok r0 ∧
    c10job.rowIndex = some 0 ∧
    (processJobRun envOne 2 c10job).job.status = Status.completed ∧
    StageCall.sheet ∉ (processJobRun envOne 2 c10job).calls :=
  ⟨rfl, by decide,
   ((c10_publish_gating envOne 2 c10job).2.2 r0 rfl (by decide)).1,
   ((c10_publish_gating envOne 2 c10job).2.2 r0 rfl (by decide)).2.1⟩

/-! ## C1 -/

/-- **C1 (failing execution)**: after job `a1` for article `A` completed,
a second admission for `A` creates pending job `a2`; a third admission —
although pending `a2` exists for the same article id — creates yet
another pending job `a3`, because `findJobByArticleId` returns the
oldest record (`a1`, completed) and only that record's status is
checked.  Two pending jobs for one article id coexist, refuting both the
idempotent-dedup clause and the at-most-one-Pending/Processing
invariant. -/
theorem c1_duplicate_pending_eval :
    Reachable c1s5 ∧
    (mapGet c1s4.jobs "a2").map (fun j => (j.articleId, j.status)) =
      some ("A", Status.pending) ∧
    c1s4.jobs.length = 2 ∧
    (mapGet c1s5.jobs "a2").map (fun j => (j.articleId, j.status)) =
      some ("A", Status.pending) ∧
    (mapGet c1s5.jobs "a3").map (fun j => (j.articleId, j.status)) =
      some ("A", Status.pending) ∧
    c1s5.jobs.length = 3 :=
  ⟨c1s5_reachable, by decide, by decide, by decide, by decide, by decide⟩

/-! ## C8 -/

/-- Multi-step version of `step_none_stable`. -/
theorem rtg_none_stable {st st' : SysState}
    (hs : Relation.ReflTransGen Step st st') (id : String)
    (hnone : mapGet st.jobs id = none) (hused : id ∈ st.usedIds) :
    mapGet st'.jobs id = none ∧ id ∈ st'.usedIds := by
  induction hs with
  | refl => exact ⟨hnone, hused⟩
  | tail hab hbc ih =>
    exact ⟨step_none_stable hbc id ih.1 ih.2, step_usedIds_subset hbc ih.2⟩

/-- **C8**: after 101 admissions the eviction deleted the oldest pending
record `j0` while its id is still at the head of the scheduler queue;
the next worker iteration pops that id, finds no record, and skips it
without error — the store, the in-flight marker and every job are left
untouched, and no state reachable from there ever stores `j0` again. -/
theorem c8_evicted_dangling_skip :
    Reachable c8state ∧
    mapGet c8state.jobs "j0" = none ∧
    c8state.queue.head? = some "j0" ∧
    beginJob 101 c8state =
      { c8state with queue := c8state.queue.tail } ∧
    (beginJob 101 c8state).inFlight = none ∧
    (∀ st', Relation.ReflTransGen Step (beginJob 101 c8state) st' →
      mapGet st'.jobs "j0" = none) :=
  ⟨c8state_reachable, by decide, by decide, by rfl, by rfl,
   fun st' h => (rtg_none_stable h "j0" (by decide) (by decide)).1⟩

theorem c8_evicted_dangling_skip_witness :
    mapGet (beginJob 101 c8state).jobs "j0" = none :=
  c8_evicted_dangling_skip.2.2.2.2.2 (beginJob 101 c8state)
    Relation.ReflTransGen.refl

/-! ## C6 -/

def c6pre : SysState := addMany (specRange 1 99) c6s2

/-- **C6 counterexample**: with 100 stored jobs whose oldest (`j0`) is
Processing, the 101st admission triggers eviction; the only candidate in
the oldest-`(size - MAX_JOBS)` slice is `j0`, it is skipped for being
Processing, and no younger record is evicted instead — the store stays
at 101 > `MAX_JOBS` records after the admission, refuting "continues
until the store size is back under the bound". -/
theorem c6_eviction_over_bound :
    Reachable c6state ∧
    c6state = (addJob c6pre ⟨"A100", "P", [], none, none⟩ "j100" 100).1 ∧
    c6pre.jobs.length = 100 ∧
    c6state.jobs.length = 101 ∧
    (mapGet c6state.jobs "j0").map (fun j => j.status) =
      some Status.processing ∧
    MAX_JOBS = 100 :=
  ⟨c6state_reachable, rfl, by decide, by decide, by decide, rfl⟩

/-- The comparison the `cleanupOldJobs` sort uses. -/
def jobLE (p q : String × QAJob) : Prop := p.2.createdAt ≤ q.2.createdAt

theorem insertJob_perm (l : List (String × QAJob)) (p : String × QAJob) :
    (insertJob l p).Perm (p :: l) := by
  induction l with
  | nil => simp [insertJob]
  | cons q rest ih =>
    unfold insertJob
    split
    · exact List.Perm.refl _
    · exact (ih.cons q).trans (List.Perm.swap p q rest)

theorem foldl_insertJob_perm (m : List (String × QAJob)) :
    ∀ acc, (m.foldl insertJob acc).Perm (acc ++ m) := by
  induction m with
  | nil => intro acc; simp
  | cons a as ih =>
    intro acc
    have h1 := ih (insertJob acc a)
    have h2 := (insertJob_perm acc a).append_right as
    have h3 : ((a :: acc) ++ as).Perm (acc ++ a :: as) := by
      simpa using
        (List.perm_middle :
          List.Perm (acc ++ a :: as) (a :: (acc ++ as))).symm
    exact (h1.trans h2).trans h3

theorem sortJobs_perm (m : List (String × QAJob)) : (sortJobs m).Perm m := by
  simpa [sortJobs] using foldl_insertJob_perm m []

theorem insertJob_pairwise (l : List (String × QAJob)) (p : String × QAJob)
    (h : l.Pairwise jobLE) : (insertJob l p).Pairwise jobLE := by
  induction l with
  | nil => simp [insertJob, List.Pairwise]
  | cons q rest ih =>
    unfold insertJob
    split
    · refine List.Pairwise.cons ?_ h
      intro b hb
      rename_i hlt
      rcases List.mem_cons.1 hb with hb | hb
      · rw [hb]
        exact Nat.le_of_lt hlt
      · have := (List.pairwise_cons.1 h).1 b hb
        exact Nat.le_of_lt (Nat.lt_of_lt_of_le hlt this)
    · rename_i hnlt
      have hqp : jobLE q p := Nat.le_of_not_lt hnlt
      refine List.Pairwise.cons ?_ (ih (List.pairwise_cons.1 h).2)
      intro b hb
      have hb' := (insertJob_perm rest p).mem_iff.1 hb
      rcases List.mem_cons.1 hb' with hb' | hb'
      · rw [hb']
        exact hqp
      · exact (List.pairwise_cons.1 h).1 b hb'

theorem sortJobs_pairwise (m : List (String × QAJob)) :
    (sortJobs m).Pairwise jobLE := by
  have hgen : ∀ acc, acc.Pairwise jobLE →
      (m.foldl insertJob acc).Pairwise jobLE := by
    induction m with
    | nil => intro acc h; exact h
    | cons a as ih =>
      intro acc h
      exact ih (insertJob acc a) (insertJob_pairwise acc a h)
  exact hgen [] (by simp)

theorem mapGet_of_mem_nodup (m : List (String × QAJob))
    (hnd : (m.map Prod.fst).Nodup) (q : String × QAJob) (hq : q ∈ m) :
    mapGet m q.1 = some q.2 := by
  induction m with
  | nil => cases hq
  | cons p rest ih =>
    rcases List.mem_cons.1 hq with hq | hq
    · rw [hq]
      simp [mapGet]
    · have hne : ¬ p.1 = q.1 := by
        intro he
        have : p.1 ∈ rest.map Prod.fst := by
          rw [he]
          exact List.mem_map_of_mem _ hq
        exact (List.nodup_cons.1 (by simpa using hnd)).1 this
      simp only [mapGet, if_neg hne]
      exact ih (List.nodup_cons.1 (by simpa using hnd)).2 hq

theorem mapGet_none_not_mem (m : List (String × QAJob)) (k : String)
    (h : mapGet m k = none) (q : String × QAJob) (hq : q ∈ m) : ¬ q.1 = k := by
  induction m with
  | nil => cases hq
  | cons p rest ih =>
    simp only [mapGet] at h
    by_cases hpk : p.1 = k
    · rw [if_pos hpk] at h
      cases h
    · rw [if_neg hpk] at h
      rcases List.mem_cons.1 hq with hq | hq
      · rw [hq]; exact hpk
      · exact ih h hq

theorem nodup_keys_mapDelete (m : List (String × QAJob)) (k : String)
    (hnd : (m.map Prod.fst).Nodup) :
    ((mapDelete m k).map Prod.fst).Nodup :=
  ((List.filter_sublist m).map Prod.fst).nodup hnd

theorem removeOldJob_keep (m : List (String × QAJob)) (p : String × QAJob)
    (jj : QAJob) (hg : mapGet m p.1 = some jj)
    (hst : jj.status = Status.processing) : removeOldJob m p = m := by
  unfold removeOldJob
  rw [hg]
  simp [hst]

theorem removeOldJob_del_some (m : List (String × QAJob)) (p : String × QAJob)
    (jj : QAJob) (hg : mapGet m p.1 = some jj)
    (hst : ¬ jj.status = Status.processing) :
    removeOldJob m p = mapDelete m p.1 := by
  unfold removeOldJob
  rw [hg]
  simp [hst]

theorem removeOldJob_del_none (m : List (String × QAJob)) (p : String × QAJob)
    (hg : mapGet m p.1 = none) : removeOldJob m p = mapDelete m p.1 := by
  unfold removeOldJob
  rw [hg]

/-- The eviction loop deletes exactly the non-Processing entries among
the listed candidates (association lists with unique keys). -/
theorem foldRemove_eq_filter (l : List (String × QAJob)) :
    ∀ m : List (String × QAJob), (m.map Prod.fst).Nodup →
      l.foldl removeOldJob m =
        m.filter (fun q =>
          decide (¬ (q.1 ∈ l.map Prod.fst ∧ q.2.status ≠ Status.processing))) := by
  induction l with
  | nil =>
    intro m _
    simp
  | cons p rest ih =>
    intro m hnd
    show rest.foldl removeOldJob (removeOldJob m p) = _
    cases hg : mapGet m p.1 with
    | some jj =>
      by_cases hst : jj.status = Status.processing
      · rw [removeOldJob_keep m p jj hg hst, ih m hnd]
        apply List.filter_congr
        intro q hq
        by_cases hqp : q.1 = p.1
        · have hqj : q.2 = jj := by
            have h2 := mapGet_of_mem_nodup m hnd q hq
            rw [hqp, hg] at h2
            cases h2
            rfl
          simp [hqj, hst, hqp]
        · have hbeq : (q.1 == p.1) = false := by simp [hqp]
          simp [List.mem_cons, hqp, hbeq]
      · rw [removeOldJob_del_some m p jj hg hst,
            ih (mapDelete m p.1) (nodup_keys_mapDelete m p.1 hnd)]
        unfold mapDelete
        rw [List.filter_filter]
        apply List.filter_congr
        intro q hq
        by_cases hqp : q.1 = p.1
        · have hqj : q.2 = jj := by
            have h2 := mapGet_of_mem_nodup m hnd q hq
            rw [hqp, hg] at h2
            cases h2
            rfl
          simp [hqj, hst, hqp]
        · have hbeq : (q.1 == p.1) = false := by simp [hqp]
          simp [List.mem_cons, hqp, hbeq]
    | none =>
      rw [removeOldJob_del_none m p hg,
          ih (mapDelete m p.1) (nodup_keys_mapDelete m p.1 hnd)]
      unfold mapDelete
      rw [List.filter_filter]
      apply List.filter_congr
      intro q hq
      have hqp : ¬ q.1 = p.1 := mapGet_none_not_mem m p.1 hg q hq
      have hbeq : (q.1 == p.1) = false := by simp [hqp]
      simp [List.mem_cons, hqp, hbeq]

/-- **C6 (amended)**: after an admission, if the store exceeds
`MAX_JOBS`, eviction considers exactly the oldest
`size - MAX_JOBS` entries by `createdAt` and removes those among them
that are not Processing; below the bound nothing is touched, a
Processing record is never removed, every removed record is
oldest-first (no retained evictable record is older than a removed
one) — but a Processing record in the oldest slice is skipped without
compensation, so the store may stay above the bound
(`c6_eviction_over_bound`). -/
theorem c6_eviction_spec :
    (∀ m : List (String × QAJob), m.length ≤ MAX_JOBS →
      cleanupOldJobs m = m) ∧
    (∀ m id j, mapGet m id = some j → j.status = Status.processing →
      mapGet (cleanupOldJobs m) id = some j) ∧
    (∀ m : List (String × QAJob), (m.map Prod.fst).Nodup →
      cleanupOldJobs m = m.filter (fun q =>
        decide (¬ (q.1 ∈ ((sortJobs m).take
              ((sortJobs m).length - MAX_JOBS)).map Prod.fst ∧
            q.2.status ≠ Status.processing)))) ∧
    (∀ m : List (String × QAJob), (m.map Prod.fst).Nodup →
      ∀ p q, p ∈ m → q ∈ m → p ∉ cleanupOldJobs m → q ∈ cleanupOldJobs m →
        q.2.status ≠ Status.processing → p.2.createdAt ≤ q.2.createdAt) := by
  have part1 : ∀ m : List (String × QAJob), m.length ≤ MAX_JOBS →
      cleanupOldJobs m = m := by
    intro m h
    unfold cleanupOldJobs
    rw [if_pos h]
  have part3 : ∀ m : List (String × QAJob), (m.map Prod.fst).Nodup →
      cleanupOldJobs m = m.filter (fun q =>
        decide (¬ (q.1 ∈ ((sortJobs m).take
              ((sortJobs m).length - MAX_JOBS)).map Prod.fst ∧
            q.2.status ≠ Status.processing))) := by
    intro m hnd
    by_cases hlen : m.length ≤ MAX_JOBS
    · rw [part1 m hlen]
      have hslen : (sortJobs m).length = m.length := (sortJobs_perm m).length_eq
      have hzero : (sortJobs m).length - MAX_JOBS = 0 := by omega
      rw [hzero]
      simp
    · unfold cleanupOldJobs
      rw [if_neg hlen]
      exact foldRemove_eq_filter _ m hnd
  refine ⟨part1, mapGet_cleanup_processing, part3, ?_⟩
  intro m hnd p q hp hq hpc hqc hqs
  by_cases hlen : m.length ≤ MAX_JOBS
  · rw [part1 m hlen] at hpc
    exact absurd hp hpc
  · rw [part3 m hnd] at hpc hqc
    have hpK : p.1 ∈ ((sortJobs m).take
        ((sortJobs m).length - MAX_JOBS)).map Prod.fst ∧
        p.2.status ≠ Status.processing := by
      by_contra hcon
      refine hpc (List.mem_filter.2 ⟨hp, ?_⟩)
      simp only [decide_eq_true_eq]
      exact hcon
    have hqP := (List.mem_filter.1 hqc).2
    simp only [decide_eq_true_eq] at hqP
    have hqK : q.1 ∉ ((sortJobs m).take
        ((sortJobs m).length - MAX_JOBS)).map Prod.fst :=
      fun hmem => hqP ⟨hmem, hqs⟩
    obtain ⟨p', hp', hpp⟩ := List.mem_map.1 hpK.1
    have hp'm : p' ∈ m :=
      (sortJobs_perm m).subset (List.take_subset _ _ hp')
    have hp'eq : p' = p := by
      have h1 := mapGet_of_mem_nodup m hnd p' hp'm
      have h2 := mapGet_of_mem_nodup m hnd p hp
      rw [hpp] at h1
      rw [h1] at h2
      have h3 : p'.2 = p.2 := by injection h2
      exact Prod.ext hpp h3
    rw [hp'eq] at hp'
    have hqsort : q ∈ sortJobs m := ((sortJobs_perm m).mem_iff).2 hq
    have hqdrop : q ∈ (sortJobs m).drop ((sortJobs m).length - MAX_JOBS) := by
      rcases (List.mem_append.1
          (by rw [List.take_append_drop]; exact hqsort :
            q ∈ (sortJobs m).take ((sortJobs m).length - MAX_JOBS) ++
              (sortJobs m).drop ((sortJobs m).length - MAX_JOBS))) with h | h
      · exact absurd (List.mem_map_of_mem Prod.fst h) hqK
      · exact h
    have hpw := sortJobs_pairwise m
    rw [← List.take_append_drop ((sortJobs m).length - MAX_JOBS) (sortJobs m)]
      at hpw
    exact (List.pairwise_append.1 hpw).2.2 p hp' q hqdrop

/-- A one-entry store with a Processing record, for the witness. -/
def procJob : QAJob :=
  { newJob inputA "k" 0 with status := Status.processing }

theorem c6_eviction_spec_witness :
    ([] : List (String × QAJob)).length ≤ MAX_JOBS ∧
    cleanupOldJobs [] = [] ∧
    mapGet (cleanupOldJobs [("k", procJob)]) "k" = some procJob :=
  ⟨by decide, c6_eviction_spec.1 [] (by decide),
   c6_eviction_spec.2.1 [("k", procJob)] "k" procJob (by decide) (by decide)⟩

/-- Finishing the in-flight job stores exactly the record one
processing attempt produces. -/
theorem finishJob_get (env : Env) (t : Nat) (st : SysState) (id : String)
    (j : QAJob) (hflight : st.inFlight = some id)
    (hj : mapGet st.jobs id = some j) :
    mapGet (finishJob env t st).jobs id = some (processJobRun env t j).job := by
  rcases finishJob_cases env t st with ⟨hf0, _⟩ | ⟨id0, hf0, hn0, _⟩ |
    ⟨id0, j0, hf0, hg0, he⟩
  · rw [hflight] at hf0; cases hf0
  · rw [hflight] at hf0
    cases hf0
    rw [hj] at hn0
    cases hn0
  · have hid0 : id0 = id := by
      rw [hflight] at hf0
      cases hf0
      rfl
    rw [hid0] at hg0 he
    have hj0 : j0 = j := by
      rw [hj] at hg0
      cases hg0
      rfl
    rw [hj0] at he
    rw [he]
    simp only []
    rw [mapGet_mapSet, if_pos rfl]

/-- **C5 (amended)**: a Degrade in Analyze, Report or Publish never
prevents the job from completing — the record still ends `completed`
with `completedAt` set and `error` untouched — and the degrade is
recorded only in `processingLogs`: an Analyze degrade appends exactly
two lines (the `❌` failure line and a continuing notice), a Report
degrade appends exactly two lines likewise, and a Publish degrade
appends exactly one failure line after the fixed announcement line. -/
theorem c5_degrade_still_completes (st : SysState) (env : Env) (t : Nat)
    (id : String) (j : QAJob)
    (hflight : st.inFlight = some id) (hj : mapGet st.jobs id = some j) :
    (∀ sr e, processScreenshots env = Except.ok sr →
      0 < sr.screenshots.length → 0 < j.references.length →
      env.analyzeScreenshots = Except.error e →
      ∃ j', mapGet (finishJob env t st).jobs id = some j' ∧
        j'.status = Status.completed ∧ j'.completedAt = some t ∧
        j'.error = j.error ∧
        j'.processingLogs =
          j.processingLogs ++ ["Starting screenshot generation..."] ++
            sr.processingLogs ++
            [s!"Starting AI analysis with {sr.screenshots.length} screenshots and {j.references.length} references..."] ++
            modelStatsPreLog sr.modelStats ++
            [s!"❌ AI analysis failed: {e}",
             "⚠️ Continuing without AI analysis and PDF report"] ++
            [s!"Completed successfully at {t}",
             s!"Generated {sr.screenshots.length} screenshots"] ++
            modelStatsFinalLog sr.modelStats) ∧
    (∀ sr ana e, processScreenshots env = Except.ok sr →
      0 < sr.screenshots.length → 0 < j.references.length →
      env.analyzeScreenshots = Except.ok ana →
      env.generateQAReport = Except.error e →
      ∃ j', mapGet (finishJob env t st).jobs id = some j' ∧
        j'.status = Status.completed ∧ j'.completedAt = some t ∧
        j'.error = j.error ∧
        j'.processingLogs =
          j.processingLogs ++ ["Starting screenshot generation..."] ++
            sr.processingLogs ++
            [s!"Starting AI analysis with {sr.screenshots.length} screenshots and {j.references.length} references..."] ++
            modelStatsPreLog sr.modelStats ++ analyzeOkLogs ana ++
            ["Starting PDF report generation...",
             s!"❌ PDF generation failed: {e}",
             "⚠️ Continuing without PDF report"] ++
            [s!"Completed successfully at {t}",
             s!"Generated {sr.screenshots.length} screenshots"] ++
            [s!"AI Analysis: {ana.status}"] ++
            modelStatsFinalLog sr.modelStats) ∧
    (∀ sr ana pr e, processScreenshots env = Except.ok sr →
      0 < sr.screenshots.length → 0 < j.references.length →
      env.analyzeScreenshots = Except.ok ana →
      env.generateQAReport = Except.ok pr → ¬ pr.pdfUrl = "" →
      truthyStr j.sheetId = true → truthyNat j.rowIndex = true →
      env.updateSheet = Except.error e →
      ∃ j', mapGet (finishJob env t st).jobs id = some j' ∧
        j'.status = Status.completed ∧ j'.completedAt = some t ∧
        j'.error = j.error ∧
        j'.processingLogs =
          j.processingLogs ++ ["Starting screenshot generation..."] ++
            sr.processingLogs ++
            [s!"Starting AI analysis with {sr.screenshots.length} screenshots and {j.references.length} references..."] ++
            modelStatsPreLog sr.modelStats ++ analyzeOkLogs ana ++
            ["Starting PDF report generation..."] ++ pr.processingLogs ++
            [s!"✅ PDF report generated: {pr.pdfUrl}"] ++
            [s!"Completed successfully at {t}",
             s!"Generated {sr.screenshots.length} screenshots"] ++
            [s!"AI Analysis: {ana.status}",
             s!"PDF Report: {pr.pdfUrl}"] ++
            modelStatsFinalLog sr.modelStats ++
            ["Updating Google Sheet with PDF link...",
             s!"⚠️ Sheet update failed: {e}"]) := by
  obtain ⟨hst, hrt, hmx, hid, herr, hsh, hrw, hcr, hart, href, hcmp, hstart⟩ :=
    executeQAProcessing_frame env j
  refine ⟨?_, ?_, ?_⟩
  · intro sr e hps hns hnr ha
    have hexec := executeQAProcessing_analyzeDegrade env j sr e hps ⟨hns, hnr⟩ ha
    have her : (executeQAProcessing env j).result =
        Except.ok ⟨sr.screenshots, sr.modelStats, none, none⟩ := by rw [hexec]
    have hget := finishJob_get env t st id j hflight hj
    have hrun := processJobRun_ok env t j _ her
    obtain ⟨f1, f2, f3, f4, f5, f6, f7, f8, f9, f10, f11, f12⟩ :=
      finalizeJob_fst env t ⟨sr.screenshots, sr.modelStats, none, none⟩
        (executeQAProcessing env j).job
    have hlogs := finalizeJob_logs env t ⟨sr.screenshots, sr.modelStats, none, none⟩
      (executeQAProcessing env j).job
    refine ⟨(processJobRun env t j).job, hget, ?_, ?_, ?_, ?_⟩
    · rw [hrun]; exact f1
    · rw [hrun]; exact f6
    · rw [hrun]; exact f5.trans herr
    · rw [hrun]
      simp only []
      rw [hlogs, hexec]
      simp [aiVerdictLog, pdfUrlLog, sheetAttemptLogs, truthyStr, pushLogs]
  · intro sr ana e hps hns hnr ha hpdf
    have hexec := executeQAProcessing_pdfDegrade env j sr ana e hps ⟨hns, hnr⟩ ha hpdf
    have her : (executeQAProcessing env j).result =
        Except.ok ⟨sr.screenshots, sr.modelStats, some ana, none⟩ := by rw [hexec]
    have hget := finishJob_get env t st id j hflight hj
    have hrun := processJobRun_ok env t j _ her
    obtain ⟨f1, f2, f3, f4, f5, f6, f7, f8, f9, f10, f11, f12⟩ :=
      finalizeJob_fst env t ⟨sr.screenshots, sr.modelStats, some ana, none⟩
        (executeQAProcessing env j).job
    have hlogs := finalizeJob_logs env t ⟨sr.screenshots, sr.modelStats, some ana, none⟩
      (executeQAProcessing env j).job
    refine ⟨(processJobRun env t j).job, hget, ?_, ?_, ?_, ?_⟩
    · rw [hrun]; exact f1
    · rw [hrun]; exact f6
    · rw [hrun]
      exact f5.trans herr
    · rw [hrun]
      simp only []
      rw [hlogs, hexec]
      simp [aiVerdictLog, pdfUrlLog, sheetAttemptLogs, truthyStr, pushLogs]
  · intro sr ana pr e hps hns hnr ha hpdf hurl hshT hrwT hus
    have hexec := executeQAProcessing_allOk env j sr ana pr hps ⟨hns, hnr⟩ ha hpdf
    have her : (executeQAProcessing env j).result =
        Except.ok ⟨sr.screenshots, sr.modelStats, some ana, some pr.pdfUrl⟩ := by
      rw [hexec]
      simp [hurl]
    have hget := finishJob_get env t st id j hflight hj
    have hrun := processJobRun_ok env t j _ her
    obtain ⟨f1, f2, f3, f4, f5, f6, f7, f8, f9, f10, f11, f12⟩ :=
      finalizeJob_fst env t ⟨sr.screenshots, sr.modelStats, some ana, some pr.pdfUrl⟩
        (executeQAProcessing env j).job
    have hlogs := finalizeJob_logs env t
      ⟨sr.screenshots, sr.modelStats, some ana, some pr.pdfUrl⟩
      (executeQAProcessing env j).job
    refine ⟨(processJobRun env t j).job, hget, ?_, ?_, ?_, ?_⟩
    · rw [hrun]; exact f1
    · rw [hrun]; exact f6
    · rw [hrun]
      exact f5.trans herr
    · rw [hrun]
      simp only []
      have hpT : truthyStr (some pr.pdfUrl) = true := by simp [truthyStr, hurl]
      rw [hlogs, hexec]
      simp [aiVerdictLog, pdfUrlLog, sheetAttemptLogs, hus, hurl,
        hshT, hrwT, hpT, pushLogs]

def c9s4job : QAJob := (mapGet c9s4.jobs "d1").getD blankJob

theorem c5_degrade_still_completes_witness :
    c9s4.inFlight = some "d1" ∧
    mapGet c9s4.jobs "d1" = some c9s4job ∧
    (∃ j', mapGet (finishJob envOne 4 c9s4).jobs "d1" = some j' ∧
      j'.status = Status.completed ∧ j'.completedAt = some 4) :=
  ⟨by decide, by decide, by
    obtain ⟨j', h1, h2, h3, _, _⟩ :=
      (c5_degrade_still_completes c9s4 envOne 4 "d1" c9s4job
        (by decide) (by decide)).1 srOne "noai" rfl (by decide) (by decide) rfl
    exact ⟨j', h1, h2, h3⟩⟩

/-- Logs of the `c9s5` record before its single Analyze degrade. -/
def c5preLogs : List String :=
  ["Job created for Article ID: B", "Started processing at 1",
   "Starting screenshot generation...",
   "Error (attempt 1): Screenshot processing failed: No screenshots were successfully captured. Check GLB file validity and model-viewer compatibility.",
   "Retry scheduled (1/3)", "Started processing at 3",
   "Starting screenshot generation...",
   "Taking screenshot from front angle...",
   "✅ front screenshot completed: u1",
   "Taking screenshot from back angle...",
   "❌ Failed to capture back screenshot: pagefail",
   "Taking screenshot from left angle...",
   "❌ Failed to capture left screenshot: pagefail",
   "Taking screenshot from right angle...",
   "❌ Failed to capture right screenshot: pagefail",
   "Taking screenshot from isometric angle...",
   "❌ Failed to capture isometric screenshot: pagefail",
   "Browser closed",
   "Screenshot processing completed: 1 images generated",
   "Starting AI analysis with 1 screenshots and 1 references..."]

/-- **C5 counterexample**: in the reachable state `c9s5` exactly one
degrade occurred (the Analyze call threw `noai`), the job still
completed, and the degrade handling appended exactly TWO log lines —
the `❌` failure line and the continuing notice — refuting "appends
exactly one descriptive log line per degrade". -/
theorem c5_degrade_two_lines_counterexample :
    Reachable c9s5 ∧
    mapGet c9s5.jobs "d1" = some c9s5job ∧
    c9s5job.status = Status.completed ∧
    c9s5job.processingLogs =
      c5preLogs ++
        ["❌ AI analysis failed: noai",
         "⚠️ Continuing without AI analysis and PDF report"] ++
        ["Completed successfully at 4", "Generated 1 screenshots"] ∧
    ¬ (["❌ AI analysis failed: noai",
        "⚠️ Continuing without AI analysis and PDF report"].length = 1) :=
  ⟨c9s5_reachable, by decide, by decide, by decide, by decide⟩
